import Mathlib

/-!
# Verification of the SASIC fabric generation engine

A shallow embedding of the fabric generation engine of `fab_gen.py`
(Sky130 structured ASIC fabric generator), together with theorems that
settle the testable properties stated in the specification.

Physical (floating-point) quantities are embedded as rationals `ℚ`;
Python integers are `ℕ` (all quantities involved are non-negative
counts and site coordinates); Python exceptions become `Except String`.
Optional dataclass fields become `Option`.  Dataclass fields keep the
source names.  Fields of the source dataclasses that are never read by
the engine functions under verification (pin maps, timing data, layer
maps, descriptions of the power grid) are omitted; this is noted at
each structure.
-/

set_option linter.unusedVariables false

namespace SASIC

instance {ε α : Type _} [DecidableEq ε] [DecidableEq α] : DecidableEq (Except ε α) := fun x y =>
  match x, y with
  | .error a, .error b =>
      if h : a = b then .isTrue (by rw [h])
      else .isFalse (by intro hc; injection hc; contradiction)
  | .ok a, .ok b =>
      if h : a = b then .isTrue (by rw [h])
      else .isFalse (by intro hc; injection hc; contradiction)
  | .error _, .ok _ => .isFalse (fun hc => Except.noConfusion hc)
  | .ok _, .error _ => .isFalse (fun hc => Except.noConfusion hc)

/-- Model of `PowerInfo` dataclass: leakage in micro-watts. -/
structure PowerInfo where
  leakage : ℚ
deriving DecidableEq, Repr

/-- Model of `Cell` dataclass.  The fields `pins`, `drive_strength`, `function`,
`clock_pin`, `spacing_rule` and `timing` are never read by the engine
functions verified here and are omitted. -/
structure Cell where
  name : String
  «alias» : String
  width : ℕ
  height : ℕ
  cell_type : String
  power : Option PowerInfo := none
deriving DecidableEq, Repr, Inhabited

/-- Model of `Site` dataclass. -/
structure Site where
  name : String
  width : ℚ
  height : ℚ
deriving DecidableEq, Repr

/-- Model of `Units` dataclass (integer scale factors; only `distance` is read by
the DEF writer). -/
structure Units where
  distance : ℤ := 1000
  time : ℤ := 1000
  capacitance : ℤ := 1000
  resistance : ℤ := 1000
  current : ℤ := 1000
deriving DecidableEq, Repr

/-- Model of `Technology` dataclass.  The `layers` map is never read by the
engine functions verified here and is omitted. -/
structure Technology where
  technology : String
  version : String
  description : String
  units : Units
  site : Site
  cells : List Cell
deriving DecidableEq, Repr

/-- Model of `Technology.get_cell_by_alias`: first cell whose alias matches. -/
def Technology.get_cell_by_alias (t : Technology) («alias» : String) : Option Cell :=
  t.cells.find? (fun c => c.«alias» == «alias»)

/-- Model of `CellSpec` dataclass: one run-length-encoded span of a tile row. -/
structure CellSpec where
  type : String
  count : ℕ
deriving DecidableEq, Repr

/-- Model of `TileRow` dataclass. -/
structure TileRow where
  row_id : ℕ
  cells : List CellSpec
deriving DecidableEq, Repr

/-- Model of `Tile` dataclass. -/
structure Tile where
  name : String
  description : String
  height : ℕ
  width : ℕ
  site : String
  rows : List TileRow
deriving DecidableEq, Repr

/-- Model of `TileDefinitions` dataclass. -/
structure TileDefinitions where
  tiles : List Tile
deriving DecidableEq, Repr

/-- Model of `TileDefinitions.get_tile_by_name`: first tile whose name matches. -/
def TileDefinitions.get_tile_by_name (td : TileDefinitions) (name : String) : Option Tile :=
  td.tiles.find? (fun t => t.name == name)

/-- Model of `Region` dataclass.  The Python `area` dict with keys `row_start`,
`col_start`, `width`, `height` is flattened into four fields. -/
structure Region where
  name : String
  tile_type : String
  row_start : ℕ
  col_start : ℕ
  width : ℕ
  height : ℕ
deriving DecidableEq, Repr

/-- Model of `TileConfiguration` dataclass. -/
structure TileConfiguration where
  default_tile : String
  regions : List Region := []
deriving DecidableEq, Repr

/-- Model of `EdgeCellConfig` dataclass. -/
structure EdgeCellConfig where
  enable : Bool
  cell : String
deriving DecidableEq, Repr

/-- Model of `EdgeCells` dataclass. -/
structure EdgeCells where
  left : Option EdgeCellConfig := none
  right : Option EdgeCellConfig := none
  top : Option EdgeCellConfig := none
  bottom : Option EdgeCellConfig := none
deriving DecidableEq, Repr

/-- Model of `IOPin` dataclass. -/
structure IOPin where
  name : String
  type : String
  direction : String
  position : Option ℚ := none
deriving DecidableEq, Repr

/-- Model of `IOEdge` dataclass. -/
structure IOEdge where
  spacing : String := "auto"
  pins : List IOPin := []
deriving DecidableEq, Repr

/-- Model of `IOEdge.__post_init__`: spacing mode must be known, and in manual
mode every pin must carry a position. -/
def IOEdge.post_init_check (e : IOEdge) : Except String Unit :=
  if e.spacing ≠ "auto" ∧ e.spacing ≠ "manual" then
    .error ("Invalid spacing mode: " ++ e.spacing)
  else if e.spacing = "manual" then
    match e.pins.find? (fun p => p.position.isNone) with
    | some p => .error ("Pin " ++ p.name ++ " missing position in manual spacing mode")
    | none => .ok ()
  else .ok ()

/-- Model of `PinSize` dataclass. -/
structure PinSize where
  width : ℚ := 1
  height : ℚ := 1
deriving DecidableEq, Repr

/-- Model of `IORing` dataclass: the Python `edges` dict becomes an association
list in insertion order. -/
structure IORing where
  pin_size : PinSize := {}
  edges : List (String × IOEdge) := []
deriving DecidableEq, Repr

/-- Model of `Margins` dataclass (its own post-init positivity check is not
needed by the claims verified here). -/
structure Margins where
  horizontal : ℚ
  vertical : ℚ
deriving DecidableEq, Repr

/-- Model of `ArrayDimensions` dataclass. -/
structure ArrayDimensions where
  rows : ℕ
  cols : ℕ
deriving DecidableEq, Repr

/-- Model of `FabricConfiguration` dataclass.  `power_distribution` is advisory
metadata never read by the functions verified here and is omitted. -/
structure FabricConfiguration where
  name : String
  array_dimensions : ArrayDimensions
  tile_configuration : TileConfiguration
  description : String := ""
  edge_cells : Option EdgeCells := none
  io_ring : Option IORing := none
  margins : Option Margins := none
deriving DecidableEq, Repr

/-- Model of `FabricConfiguration.__post_init__`: `if self.io_ring and
self.io_ring.edges and not self.margins: raise`.  A dataclass instance
is always truthy, a dict is truthy iff non-empty. -/
def FabricConfiguration.post_init_check (c : FabricConfiguration) : Except String FabricConfiguration :=
  match c.io_ring with
  | some ir =>
      if ir.edges ≠ [] ∧ c.margins = none then
        .error "Margins must be specified when I/O pins are defined"
      else .ok c
  | none => .ok c

/-- Model of `CellInstance` dataclass. -/
structure CellInstance where
  name : String
  cell_type : String
  x : ℚ
  y : ℚ
  width : ℚ
  height : ℚ
  tile_pos : Option (ℕ × ℕ) := none
  cell_pos : Option (ℕ × ℕ) := none
  is_edge_cell : Bool := false
  edge_direction : Option String := none
deriving DecidableEq, Repr

/-- Model of `FabricDimensions` dataclass. -/
structure FabricDimensions where
  tile_array_rows : ℕ
  tile_array_cols : ℕ
  fabric_rows : ℕ
  fabric_sites : ℕ
  core_width : ℚ
  core_height : ℚ
  die_width : ℚ
  die_height : ℚ
  margin_horizontal : ℚ := 0
  margin_vertical : ℚ := 0
deriving DecidableEq, Repr

/-- Model of `PlacedPin` dataclass. -/
structure PlacedPin where
  name : String
  direction : String
  pin_type : String
  edge : String
  x : ℚ
  y : ℚ
  width : ℚ
  height : ℚ
deriving DecidableEq, Repr

/-! ## Region validation (`_validate_regions`, `_regions_overlap`) -/

/-- Model of `FabricGenerator._regions_overlap`: `not (r1_right <= r2_left or
r2_right <= r1_left or r1_bottom <= r2_top or r2_bottom <= r1_top)`. -/
def regions_overlap (a b : Region) : Bool :=
  !(decide (a.col_start + a.width ≤ b.col_start) ||
    decide (b.col_start + b.width ≤ a.col_start) ||
    decide (a.row_start + a.height ≤ b.row_start) ||
    decide (b.row_start + b.height ≤ a.row_start))

/-- Model of `FabricGenerator._validate_regions`: for each region in order,
reject if it exceeds the array bounds, then reject if it overlaps any
later region. -/
def validate_regions (array_rows array_cols : ℕ) : List Region → Except String Unit
  | [] => .ok ()
  | r :: rest =>
      if array_rows < r.row_start + r.height ∨ array_cols < r.col_start + r.width then
        .error ("Region " ++ r.name ++ " extends beyond fabric boundaries")
      else
        match rest.find? (fun r2 => regions_overlap r r2) with
        | some r2 => .error ("Regions " ++ r.name ++ " and " ++ r2.name ++ " overlap")
        | none => validate_regions array_rows array_cols rest

/-! ## Region overlay resolver (`_initialize_tile_array`,
`_apply_regional_overrides`) -/

/-- Model of `FabricGenerator._initialize_tile_array`: rows×cols grid of the
default tile name. -/
def initialize_tile_array (rows cols : ℕ) (default_tile : String) : List (List String) :=
  List.replicate rows (List.replicate cols default_tile)

/-- One grid row under a region override: the in-place assignments
`tile_array[row][col] = region.tile_type` for `col` in the region's
column range become a pointwise update carrying the column index. -/
def override_row_cells (r : Region) : ℕ → List String → List String
  | _, [] => []
  | ci, v :: rest =>
      (if r.col_start ≤ ci ∧ ci < r.col_start + r.width then r.tile_type else v) ::
        override_row_cells r (ci + 1) rest

/-- One region override over the whole grid, carrying the row index. -/
def apply_region (r : Region) : ℕ → List (List String) → List (List String)
  | _, [] => []
  | ri, row :: rest =>
      (if r.row_start ≤ ri ∧ ri < r.row_start + r.height then override_row_cells r 0 row else row) ::
        apply_region r (ri + 1) rest

/-- Model of `FabricGenerator._apply_regional_overrides`: apply each region in
declaration order. -/
def apply_regional_overrides (grid : List (List String)) (regions : List Region) :
    List (List String) :=
  regions.foldl (fun g r => apply_region r 0 g) grid

/-! ## Tile row width validation (`Tile.validate_row_widths`) -/

/-- The accumulation `row_width += cell_spec.count * cell_def.width`,
raising on an unknown cell type. -/
def calc_row_width (tech : Technology) : List CellSpec → Except String ℕ
  | [] => .ok 0
  | cs :: rest =>
      match tech.get_cell_by_alias cs.type with
      | none => .error ("Cell type " ++ cs.type ++ " not found in technology")
      | some cd => (calc_row_width tech rest).map (fun w => cs.count * cd.width + w)

/-- The per-row breakdown strings
`f"{count}x{type}({width})={contribution}"`.  The `none` branch is
unreachable when the row width was already computed successfully. -/
def row_breakdown (tech : Technology) (cells : List CellSpec) : List String :=
  cells.map (fun cs =>
    match tech.get_cell_by_alias cs.type with
    | some cd =>
        toString cs.count ++ "x" ++ cs.type ++ "(" ++ toString cd.width ++ ")=" ++
          toString (cs.count * cd.width)
    | none => "?")

/-- The error message for a first-row width that disagrees with the
declared tile width (reports the two totals only). -/
def declared_mismatch_msg (t : Tile) (first_width : ℕ) : String :=
  "Tile " ++ t.name ++ ": Declared width " ++ toString t.width ++
    " does not match calculated width " ++ toString first_width ++ " sites"

/-- The error message for a later row that disagrees with the first row
(reports both rows' breakdowns). -/
def row_mismatch_msg (tech : Technology) (t : Tile) (r0 : TileRow) (r : TileRow)
    (i first_width row_width : ℕ) : String :=
  "Tile " ++ t.name ++ ": Row " ++ toString i ++ " width " ++ toString row_width ++
    " sites does not match first row width " ++ toString first_width ++ " sites\n" ++
    "Row 0: " ++ String.intercalate " + " (row_breakdown tech r0.cells) ++ " = " ++
    toString first_width ++ "\n" ++
    "Row " ++ toString i ++ ": " ++ String.intercalate " + " (row_breakdown tech r.cells) ++
    " = " ++ toString row_width

/-- The loop `for i, row in enumerate(self.rows[1:], 1)` of
`Tile.validate_row_widths`. -/
def check_later_rows (tech : Technology) (t : Tile) (r0 : TileRow) (first_width : ℕ) :
    List TileRow → ℕ → Except String Unit
  | [], _ => .ok ()
  | r :: rest, i => do
      let w ← calc_row_width tech r.cells
      if w ≠ first_width then
        .error (row_mismatch_msg tech t r0 r i first_width w)
      else
        check_later_rows tech t r0 first_width rest (i + 1)

/-- Model of `Tile.validate_row_widths`: the first row's width must match the
declared tile width, and every later row must match the first row. -/
def Tile.validate_row_widths (t : Tile) (tech : Technology) : Except String Unit :=
  match t.rows with
  | [] => .ok ()
  | r0 :: rest => do
      let first_width ← calc_row_width tech r0.cells
      if first_width ≠ t.width then
        .error (declared_mismatch_msg t first_width)
      else
        check_later_rows tech t r0 first_width rest 1

/-! ## Dimension calculator (`_calculate_dimensions`) -/

/-- One edge-cell contribution of `_calculate_dimensions`: `if config
and config.enable: cell = lookup(config.cell); contrib = f(cell)`.
A failed lookup is Python's `AttributeError` on `None`. -/
def edge_cell_contrib (tech : Technology) (config : Option EdgeCellConfig)
    (f : Cell → ℕ) : Except String ℕ :=
  match config with
  | some c =>
      if c.enable then
        match tech.get_cell_by_alias c.cell with
        | some cd => .ok (f cd)
        | none => .error ("edge cell " ++ c.cell ++ " not found in technology")
      else .ok 0
  | none => .ok 0

/-- All four edge contributions; zero for every side when `edge_cells`
is absent. -/
def edge_contribs (tech : Technology) (ec : Option EdgeCells) :
    Except String (ℕ × ℕ × ℕ × ℕ) := do
  match ec with
  | none => .ok (0, 0, 0, 0)
  | some e => do
      let l ← edge_cell_contrib tech e.left (fun c => c.width)
      let r ← edge_cell_contrib tech e.right (fun c => c.width)
      let t ← edge_cell_contrib tech e.top (fun c => c.height)
      let b ← edge_cell_contrib tech e.bottom (fun c => c.height)
      .ok (l, r, t, b)

/-- Model of `FabricGenerator._calculate_dimensions`.  The default-tile lookup
is unchecked in the source (`None` would crash); it is an error here. -/
def calculate_dimensions (tech : Technology) (tiles : TileDefinitions)
    (cfg : FabricConfiguration) : Except String FabricDimensions := do
  let array_rows := cfg.array_dimensions.rows
  let array_cols := cfg.array_dimensions.cols
  match tiles.get_tile_by_name cfg.tile_configuration.default_tile with
  | none => .error ("default tile " ++ cfg.tile_configuration.default_tile ++ " not found")
  | some default_tile => do
      let fabric_rows := array_rows * default_tile.height
      let fabric_sites := array_cols * default_tile.width
      let (ewl, ewr, eht, ehb) ← edge_contribs tech cfg.edge_cells
      let site_width := tech.site.width
      let site_height := tech.site.height
      let core_width : ℚ := (fabric_sites + ewl + ewr : ℕ) * site_width
      let core_height : ℚ := (fabric_rows + eht + ehb : ℕ) * site_height
      let margin_h : ℚ := match cfg.margins with | some m => m.horizontal | none => 0
      let margin_v : ℚ := match cfg.margins with | some m => m.vertical | none => 0
      .ok { tile_array_rows := array_rows
            tile_array_cols := array_cols
            fabric_rows := fabric_rows
            fabric_sites := fabric_sites
            core_width := core_width
            core_height := core_height
            die_width := core_width + 2 * margin_h
            die_height := core_height + 2 * margin_v
            margin_horizontal := margin_h
            margin_vertical := margin_v }

/-! ## Placement engine (`_generate_fabric_cells`, `_generate_tile_cells`) -/

/-- The instance name
`f"{cell_spec.type}_T{tile_row}-{tile_col}_C{row_id}-{cell_position}"`. -/
def inst_name (ty : String) (tile_row tile_col row_id cell_position : ℕ) : String :=
  ty ++ "_T" ++ toString tile_row ++ "-" ++ toString tile_col ++ "_C" ++
    toString row_id ++ "-" ++ toString cell_position

/-- The inner `for i in range(cell_spec.count)` loop: emits `count`
instances, advancing `cell_x` by the cell's physical width and
`cell_position` by one per instance. -/
def emit_cell_run (ty : String) (cd : Cell) (sw sh : ℚ) (tile_row tile_col row_id : ℕ)
    (row_y : ℚ) : ℕ → ℚ → ℕ → List CellInstance
  | 0, _, _ => []
  | n + 1, cell_x, pos =>
      { name := inst_name ty tile_row tile_col row_id pos
        cell_type := cd.name
        x := cell_x
        y := row_y
        width := cd.width * sw
        height := cd.height * sh
        tile_pos := some (tile_row, tile_col)
        cell_pos := some (row_id, pos) } ::
        emit_cell_run ty cd sw sh tile_row tile_col row_id row_y n (cell_x + cd.width * sw) (pos + 1)

/-- The `for cell_spec in row_spec.cells` loop of
`_generate_tile_cells`, threading `cell_x` and `cell_position`. -/
def gen_row_cells (tech : Technology) (sw sh : ℚ) (tile_row tile_col row_id : ℕ)
    (row_y : ℚ) : List CellSpec → ℚ → ℕ → Except String (List CellInstance)
  | [], _, _ => .ok []
  | cs :: rest, cell_x, pos =>
      match tech.get_cell_by_alias cs.type with
      | none => .error ("Cell type " ++ cs.type ++ " not found in technology")
      | some cd => do
          let tail ← gen_row_cells tech sw sh tile_row tile_col row_id row_y rest
            (cell_x + cs.count * (cd.width * sw)) (pos + cs.count)
          .ok (emit_cell_run cs.type cd sw sh tile_row tile_col row_id row_y cs.count cell_x pos
            ++ tail)

/-- Model of `FabricGenerator._generate_tile_cells`. -/
def generate_tile_cells (tech : Technology) (tile : Tile) (tile_row tile_col : ℕ)
    (x_offset y_offset : ℚ) : Except String (List CellInstance) := do
  let sw := tech.site.width
  let sh := tech.site.height
  let tile_x := x_offset + tile_col * tile.width * sw
  let tile_y := y_offset + tile_row * tile.height * sh
  let rows ← tile.rows.mapM (fun row =>
    gen_row_cells tech sw sh tile_row tile_col row.row_id (tile_y + row.row_id * sh)
      row.cells tile_x 0)
  .ok rows.flatten

/-- The base offset of `_generate_fabric_cells`: margin plus the
physical width (resp. height) of the left (resp. bottom) edge cell when
that edge is enabled. -/
def fabric_base_offset (tech : Technology) (ec : Option EdgeCells) (margin : ℚ)
    (s : ℚ) (pick : EdgeCells → Option EdgeCellConfig) (f : Cell → ℕ) :
    Except String ℚ :=
  match ec with
  | some e =>
      match pick e with
      | some c =>
          if c.enable then
            match tech.get_cell_by_alias c.cell with
            | some cd => .ok (margin + f cd * s)
            | none => .error ("edge cell " ++ c.cell ++ " not found in technology")
          else .ok margin
      | none => .ok margin
  | none => .ok margin

/-- Model of `FabricGenerator._generate_fabric_cells`: walk the resolved grid
row-major and emit the cells of every tile.  The source iterates
`range(len(tile_array))` × `range(len(tile_array[0]))`. -/
def generate_fabric_cells (tech : Technology) (tiles : TileDefinitions)
    (cfg : FabricConfiguration) (dims : FabricDimensions)
    (tile_array : List (List String)) : Except String (List CellInstance) := do
  let x_offset ← fabric_base_offset tech cfg.edge_cells dims.margin_horizontal
    tech.site.width (fun e => e.left) (fun c => c.width)
  let y_offset ← fabric_base_offset tech cfg.edge_cells dims.margin_vertical
    tech.site.height (fun e => e.bottom) (fun c => c.height)
  let rows ← (List.range tile_array.length).mapM (fun tile_row =>
    (List.range (tile_array.headD []).length).mapM (fun tile_col => do
      let tile_name := (tile_array.getD tile_row []).getD tile_col ""
      match tiles.get_tile_by_name tile_name with
      | none => .error ("tile " ++ tile_name ++ " not found in tile definitions")
      | some tile => generate_tile_cells tech tile tile_row tile_col x_offset y_offset))
  .ok (rows.map List.flatten).flatten

/-! ## Pin placement engine (`_place_auto_pins`, `_place_manual_pins`,
`_validate_pin_position`) -/

/-- The `for i, pin in enumerate(edge_config.pins)` loop of the
north/south branch of `_place_auto_pins`. -/
def auto_pins_x (edge_name : String) (ps : PinSize) (dims : FabricDimensions)
    (spacing : ℚ) : ℕ → List IOPin → List PlacedPin
  | _, [] => []
  | i, pin :: rest =>
      { name := pin.name
        direction := pin.direction
        pin_type := pin.type
        edge := edge_name
        x := dims.margin_horizontal + (i + 1) * spacing - ps.width / 2
        y := if edge_name = "south" then 0 else dims.die_height - ps.height
        width := ps.width
        height := ps.height } :: auto_pins_x edge_name ps dims spacing (i + 1) rest

/-- The east/west branch of the same loop. -/
def auto_pins_y (edge_name : String) (ps : PinSize) (dims : FabricDimensions)
    (spacing : ℚ) : ℕ → List IOPin → List PlacedPin
  | _, [] => []
  | i, pin :: rest =>
      { name := pin.name
        direction := pin.direction
        pin_type := pin.type
        edge := edge_name
        x := if edge_name = "west" then 0 else dims.die_width - ps.width
        y := dims.margin_vertical + (i + 1) * spacing - ps.height / 2
        width := ps.width
        height := ps.height } :: auto_pins_y edge_name ps dims spacing (i + 1) rest

/-- Model of `FabricGenerator._place_auto_pins`. -/
def place_auto_pins (edge_name : String) (edge_pins : List IOPin) (ps : PinSize)
    (dims : FabricDimensions) : List PlacedPin :=
  if edge_pins = [] then []
  else if edge_name = "north" ∨ edge_name = "south" then
    let available_width := dims.die_width - 2 * dims.margin_horizontal
    let spacing := available_width / (edge_pins.length + 1)
    auto_pins_x edge_name ps dims spacing 0 edge_pins
  else
    let available_height := dims.die_height - 2 * dims.margin_vertical
    let spacing := available_height / (edge_pins.length + 1)
    auto_pins_y edge_name ps dims spacing 0 edge_pins

/-- Model of `FabricGenerator._validate_pin_position`. -/
def validate_pin_position (pin_name edge : String) (x y : ℚ) (ps : PinSize)
    (dims : FabricDimensions) : Except String Unit :=
  if edge = "north" ∨ edge = "south" then
    if x < dims.margin_horizontal ∨ dims.die_width - dims.margin_horizontal < x + ps.width then
      .error ("Pin " ++ pin_name ++ " extends outside margin boundaries")
    else .ok ()
  else
    if y < dims.margin_vertical ∨ dims.die_height - dims.margin_vertical < y + ps.height then
      .error ("Pin " ++ pin_name ++ " extends outside margin boundaries")
    else .ok ()

/-- The per-edge coordinates computed by `_place_manual_pins` for a
declared position (the `else` branch of the source is `west`). -/
def manual_pin_xy (edge_name : String) (pos : ℚ) (ps : PinSize)
    (dims : FabricDimensions) : ℚ × ℚ :=
  if edge_name = "north" then (pos - ps.width / 2, dims.die_height - ps.height)
  else if edge_name = "south" then (pos - ps.width / 2, 0)
  else if edge_name = "east" then (dims.die_width - ps.width, pos - ps.height / 2)
  else (0, pos - ps.height / 2)

/-- The loop body of `_place_manual_pins` for one pin: compute the
coordinates, validate them against the margin band, and place. -/
def place_one_manual_pin (edge_name : String) (ps : PinSize) (dims : FabricDimensions)
    (pin : IOPin) : Except String PlacedPin :=
  match pin.position with
  | none => .error ("Pin " ++ pin.name ++ " missing position in manual mode")
  | some pos => do
      let xy := manual_pin_xy edge_name pos ps dims
      validate_pin_position pin.name edge_name xy.1 xy.2 ps dims
      .ok { name := pin.name
            direction := pin.direction
            pin_type := pin.type
            edge := edge_name
            x := xy.1
            y := xy.2
            width := ps.width
            height := ps.height }

/-- Model of `FabricGenerator._place_manual_pins`. -/
def place_manual_pins (edge_name : String) (edge_pins : List IOPin) (ps : PinSize)
    (dims : FabricDimensions) : Except String (List PlacedPin) :=
  edge_pins.mapM (place_one_manual_pin edge_name ps dims)

/-! ## Statistics aggregator (`_calculate_statistics`): the leakage
accumulation over the combined instance list.  The per-alias count
bookkeeping of the same loop touches only dictionaries that no claim
mentions and does not influence the leakage sum; it is not modelled. -/

/-- Model of `FabricGenerator._get_cell_alias`: reverse name→alias lookup. -/
def get_cell_alias (tech : Technology) (cell_name : String) : Option String :=
  (tech.cells.find? (fun c => c.name == cell_name)).map (fun c => c.«alias»)

/-- One iteration of the leakage accumulation of
`_calculate_statistics`: an instance whose alias resolves to a truthy
(non-empty) string and whose cell definition carries power data
contributes `leakage * 1e-6`; every other instance contributes nothing
(and is not an error).  Python's `if cell_alias:` is string
truthiness: it skips both a `None` alias and an empty-string alias. -/
def leakage_step (tech : Technology) (acc : ℚ) (inst : CellInstance) : ℚ :=
  match get_cell_alias tech inst.cell_type with
  | none => acc
  | some al =>
      if al = "" then acc
      else
        match tech.get_cell_by_alias al with
        | none => acc
        | some cd =>
            match cd.power with
            | none => acc
            | some p => acc + p.leakage * (1 / 1000000)

/-- The leakage accumulation of `_calculate_statistics` over
`self.cell_instances + self.edge_cell_instances`. -/
def total_leakage_power (tech : Technology) (instances : List CellInstance) : ℚ :=
  instances.foldl (leakage_step tech) 0

/-! ## DEF writer (`_write_def_components`, `_write_def_pins`) -/

/-- Python `int()` on a rational: truncation toward zero. -/
def python_int (q : ℚ) : ℤ :=
  q.num.tdiv q.den

/-- One line of the `COMPONENTS` section of the DEF output (the
numeric fields written by `_write_def_components`). -/
structure DefComponent where
  name : String
  cell_type : String
  x : ℤ
  y : ℤ
deriving DecidableEq, Repr

/-- Model of `FabricGenerator._write_def_components`:
`x = int(component.x * units)`, `y = int(component.y * units)` over
`self.cell_instances + self.edge_cell_instances`. -/
def write_def_components (units : ℤ) (components : List CellInstance) : List DefComponent :=
  components.map (fun c =>
    { name := c.name
      cell_type := c.cell_type
      x := python_int (c.x * units)
      y := python_int (c.y * units) })

/-- One record of the `PINS` section of the DEF output (the numeric
fields written by `_write_def_pins`). -/
structure DefPinRecord where
  name : String
  direction : String
  x1 : ℤ
  y1 : ℤ
  x2 : ℤ
  y2 : ℤ
deriving DecidableEq, Repr

/-- Model of `FabricGenerator._write_def_pins`: the pin rectangle corners
`int(pin.x * units)`, `int((pin.x + pin.width) * units)`, etc. -/
def write_def_pins (units : ℤ) (pins : List PlacedPin) : List DefPinRecord :=
  pins.map (fun p =>
    { name := p.name
      direction := p.direction.toUpper
      x1 := python_int (p.x * units)
      y1 := python_int (p.y * units)
      x2 := python_int ((p.x + p.width) * units)
      y2 := python_int ((p.y + p.height) * units) })

/-! ## Specification-side definitions

The definitions below state, in the specification's own words, the
geometric and arithmetic predicates that the claims compare the engine
against. -/

/-- A region's rectangle lies entirely within the `rows×cols` array
bounds. -/
def region_in_bounds (array_rows array_cols : ℕ) (r : Region) : Prop :=
  r.row_start + r.height ≤ array_rows ∧ r.col_start + r.width ≤ array_cols

/-- Two regions' rectangles intersect on a positive area: the
intersection of the half-open column spans and of the half-open row
spans are both non-empty. -/
def positive_area_intersect (a b : Region) : Prop :=
  max a.col_start b.col_start < min (a.col_start + a.width) (b.col_start + b.width) ∧
  max a.row_start b.row_start < min (a.row_start + a.height) (b.row_start + b.height)

/-- Grid cell `(ri, ci)` is covered by the rectangle of region `r`. -/
def region_covers (r : Region) (ri ci : ℕ) : Prop :=
  r.row_start ≤ ri ∧ ri < r.row_start + r.height ∧
  r.col_start ≤ ci ∧ ci < r.col_start + r.width

instance (r : Region) (ri ci : ℕ) : Decidable (region_covers r ri ci) := by
  unfold region_covers; infer_instance

instance (array_rows array_cols : ℕ) (r : Region) :
    Decidable (region_in_bounds array_rows array_cols r) := by
  unfold region_in_bounds; infer_instance

instance (a b : Region) : Decidable (positive_area_intersect a b) := by
  unfold positive_area_intersect; infer_instance

/-- The tile-type name of the last region in declaration order that
covers `(ri, ci)`, if any (proof helper for the overlay fold). -/
def last_cover (regions : List Region) (ri ci : ℕ) : Option String :=
  regions.foldl (fun acc r => if region_covers r ri ci then some r.tile_type else acc) none

/-- Truncation toward zero of a rational, as the specification words
the physical-to-integer-unit conversion contract. -/
def trunc_toward_zero (q : ℚ) : ℤ :=
  if 0 ≤ q then ⌊q⌋ else ⌈q⌉

/-- Spec-side row width: the sum of `cellspec.count × cellDef.width`
over the row (meaningful when every cell type resolves). -/
def row_width_sum (tech : Technology) (cells : List CellSpec) : ℕ :=
  (cells.map (fun cs => cs.count * ((tech.get_cell_by_alias cs.type).getD default).width)).sum

/-- Spec-side manual-pin band check: the computed pin rectangle lies
fully within the margin band on the edge's relevant axis. -/
def pin_within_band (edge_name : String) (pin : IOPin) (ps : PinSize)
    (dims : FabricDimensions) : Prop :=
  let pos := pin.position.getD 0
  if edge_name = "north" ∨ edge_name = "south" then
    dims.margin_horizontal ≤ pos - ps.width / 2 ∧
      (pos - ps.width / 2) + ps.width ≤ dims.die_width - dims.margin_horizontal
  else
    dims.margin_vertical ≤ pos - ps.height / 2 ∧
      (pos - ps.height / 2) + ps.height ≤ dims.die_height - dims.margin_vertical

instance (edge_name : String) (pin : IOPin) (ps : PinSize) (dims : FabricDimensions) :
    Decidable (pin_within_band edge_name pin ps dims) := by
  unfold pin_within_band; dsimp only; infer_instance

/-- Spec-side manual placement: the axis coordinate comes directly from
the declared position (centered by half the pin size, never clipped),
the perpendicular coordinate sits at the die boundary with the pin
extending inward. -/
def manual_placed_pin (edge_name : String) (pin : IOPin) (ps : PinSize)
    (dims : FabricDimensions) : PlacedPin :=
  let pos := pin.position.getD 0
  { name := pin.name
    direction := pin.direction
    pin_type := pin.type
    edge := edge_name
    x := if edge_name = "north" ∨ edge_name = "south" then pos - ps.width / 2
         else if edge_name = "east" then dims.die_width - ps.width else 0
    y := if edge_name = "north" then dims.die_height - ps.height
         else if edge_name = "south" then 0 else pos - ps.height / 2
    width := ps.width
    height := ps.height }

/-- Spec-side leakage contribution of one placed instance: the declared
leakage of the cell definition named by its `cell_type`, converted from
micro-watts to watts, and zero when power data is absent. -/
def spec_leak_contribution (tech : Technology) (inst : CellInstance) : ℚ :=
  match tech.cells.find? (fun c => c.name == inst.cell_type) with
  | some cd => (match cd.power with | some p => p.leakage | none => 0) * (1 / 1000000)
  | none => 0

/-- Amended spec-side leakage contribution of one placed instance: as
`spec_leak_contribution`, except that an instance whose cell
definition carries an empty alias also contributes exactly zero (the
engine's string-truthiness guard skips it). -/
def spec_leak_contribution_guarded (tech : Technology) (inst : CellInstance) : ℚ :=
  match tech.cells.find? (fun c => c.name == inst.cell_type) with
  | some cd =>
      if cd.«alias» = "" then 0
      else (match cd.power with | some p => p.leakage | none => 0) * (1 / 1000000)
  | none => 0

/-- Resolve a tile row's run-length-encoded `CellSpec` sequence into
the flat sequence of (alias, cell definition) occurrences, in
declaration order. -/
def resolve_row (tech : Technology) (cells : List CellSpec) : Option (List (String × Cell)) :=
  (cells.mapM (fun cs =>
    (tech.get_cell_by_alias cs.type).map (fun cd => List.replicate cs.count (cs.type, cd)))).map
    List.flatten

/-- The running sum of the physical widths of a sequence of cells. -/
def run_sum_width (sw : ℚ) (defs : List (String × Cell)) : ℚ :=
  (defs.map (fun p => (p.2.width : ℚ) * sw)).sum

/-- Spec-side placement of one resolved tile row: the `k`-th occurrence
sits at the row origin plus the running sum of the physical widths of
all preceding cells, with no gaps and no reordering. -/
def spec_row_instances (sw sh : ℚ) (tile_row tile_col row_id : ℕ) (tile_x row_y : ℚ)
    (defs : List (String × Cell)) : List CellInstance :=
  (List.range defs.length).map (fun k =>
    let p := defs.getD k ("", default)
    { name := inst_name p.1 tile_row tile_col row_id k
      cell_type := p.2.name
      x := tile_x + run_sum_width sw (defs.take k)
      y := row_y
      width := p.2.width * sw
      height := p.2.height * sh
      tile_pos := some (tile_row, tile_col)
      cell_pos := some (row_id, k) })

/-- Recursive form of the spec-side row placement, threading the
running x coordinate and position (proof helper relating the running
sum to the engine's incremental accumulation). -/
def spec_row_from (sw sh : ℚ) (tile_row tile_col row_id : ℕ) (row_y : ℚ) :
    List (String × Cell) → ℚ → ℕ → List CellInstance
  | [], _, _ => []
  | (al, cd) :: rest, x0, p0 =>
      { name := inst_name al tile_row tile_col row_id p0
        cell_type := cd.name
        x := x0
        y := row_y
        width := cd.width * sw
        height := cd.height * sh
        tile_pos := some (tile_row, tile_col)
        cell_pos := some (row_id, p0) } ::
        spec_row_from sw sh tile_row tile_col row_id row_y rest (x0 + cd.width * sw) (p0 + 1)

/-- Spec-side placement of one tile: tile origin = base offset +
`(tile_col × tile.width × site_width, tile_row × tile.height ×
site_height)`; each row sits `row_id × site_height` above the tile
origin. -/
def spec_tile_instances (tech : Technology) (tile : Tile) (tile_row tile_col : ℕ)
    (bx by0 : ℚ) : Option (List CellInstance) := do
  let sw := tech.site.width
  let sh := tech.site.height
  let rows ← tile.rows.mapM (fun row =>
    (resolve_row tech row.cells).map (fun defs =>
      spec_row_instances sw sh tile_row tile_col row.row_id
        (bx + tile_col * tile.width * sw)
        (by0 + tile_row * tile.height * sh + row.row_id * sh) defs))
  some rows.flatten

/-- Spec-side base offset: margin plus the enabled edge cell's physical
size on that side (zero contribution when absent or disabled). -/
def spec_base_offset (tech : Technology) (ec : Option EdgeCells) (margin s : ℚ)
    (pick : EdgeCells → Option EdgeCellConfig) (f : Cell → ℕ) : Option ℚ :=
  match ec with
  | some e =>
      match pick e with
      | some c =>
          if c.enable then
            (tech.get_cell_by_alias c.cell).map (fun cd => margin + f cd * s)
          else some margin
      | none => some margin
  | none => some margin

/-- Spec-side fabric placement: walk the resolved grid row-major and
lay out every tile per `spec_tile_instances`. -/
def spec_fabric_instances (tech : Technology) (tiles : TileDefinitions)
    (cfg : FabricConfiguration) (dims : FabricDimensions)
    (tile_array : List (List String)) : Option (List CellInstance) := do
  let bx ← spec_base_offset tech cfg.edge_cells dims.margin_horizontal tech.site.width
    (fun e => e.left) (fun c => c.width)
  let by0 ← spec_base_offset tech cfg.edge_cells dims.margin_vertical tech.site.height
    (fun e => e.bottom) (fun c => c.height)
  let rows ← (List.range tile_array.length).mapM (fun tile_row =>
    (List.range (tile_array.headD []).length).mapM (fun tile_col => do
      let tile ← tiles.get_tile_by_name ((tile_array.getD tile_row []).getD tile_col "")
      spec_tile_instances tech tile tile_row tile_col bx by0))
  some (rows.map List.flatten).flatten

/-! ## Concrete example inputs (used by witnesses and counterexamples) -/

/-- A Sky130-like unit site, 0.46 μm × 2.72 μm. -/
def siteW : Site := { name := "unithd", width := 46/100, height := 272/100 }

/-- NAND2 cell: 2 sites wide, with power data (2 μW leakage). -/
def cellNAND : Cell :=
  { name := "sky130_nand2", «alias» := "NAND", width := 2, height := 1,
    cell_type := "combinational", power := some ⟨2⟩ }

/-- Inverter cell: 1 site wide, no power data. -/
def cellINV : Cell :=
  { name := "sky130_inv", «alias» := "INV", width := 1, height := 1,
    cell_type := "combinational", power := none }

/-- Tap cell used as an edge cell. -/
def cellTAP : Cell :=
  { name := "sky130_tap", «alias» := "TAP", width := 1, height := 1,
    cell_type := "physical", power := some ⟨1⟩ }

/-- The example technology. -/
def techW : Technology :=
  { technology := "sky130", version := "1.0", description := "example",
    units := {}, site := siteW, cells := [cellNAND, cellINV, cellTAP] }

/-- A 1-row tile, declared width 3 = 2 (NAND) + 1 (INV). -/
def tileBasic : Tile :=
  { name := "basic", description := "", height := 1, width := 3, site := "unithd",
    rows := [{ row_id := 0, cells := [⟨"NAND", 1⟩, ⟨"INV", 1⟩] }] }

/-- The example tile library. -/
def tilesW : TileDefinitions := { tiles := [tileBasic] }

/-- A tile whose single row sums to 3 sites but declares width 2:
rejected against the declared width, without any breakdown. -/
def tileBad : Tile :=
  { name := "bad", description := "", height := 1, width := 2, site := "unithd",
    rows := [{ row_id := 0, cells := [⟨"NAND", 1⟩, ⟨"INV", 1⟩] }] }

/-- Dummy default used with `List.getD` on placed-pin lists. -/
def dummy_pin : PlacedPin :=
  { name := "", direction := "", pin_type := "", edge := "", x := 0, y := 0,
    width := 0, height := 0 }

/-- A 2×2 configuration with left/bottom edges enabled, a disabled top
edge, and margins. -/
def cfgC3 : FabricConfiguration :=
  { name := "fabC3"
    array_dimensions := ⟨2, 2⟩
    tile_configuration := ⟨"basic", []⟩
    edge_cells := some
      { left := some ⟨true, "TAP"⟩
        right := none
        top := some ⟨false, "TAP"⟩
        bottom := some ⟨true, "TAP"⟩ }
    margins := some ⟨5, 7⟩ }

/-- A 3×3 region at the origin. -/
def regionA : Region := ⟨"A", "basic", 0, 0, 3, 3⟩

/-- A degenerate zero-width region whose row/col spans fall strictly
inside those of `regionA`. -/
def regionB : Region := ⟨"B", "basic", 1, 1, 0, 2⟩

/-- A 1×1 region override at grid position (0, 1). -/
def regionR : Region := ⟨"R", "basic", 0, 1, 1, 1⟩

/-- Example derived dimensions: a 20×10 die with 2-unit margins. -/
def dimsW : FabricDimensions :=
  { tile_array_rows := 2, tile_array_cols := 2, fabric_rows := 2, fabric_sites := 6,
    core_width := 16, core_height := 6, die_width := 20, die_height := 10,
    margin_horizontal := 2, margin_vertical := 2 }

/-- A manual pin declared at linear position 5. -/
def pinP5 : IOPin :=
  { name := "a", type := "signal", direction := "input", position := some 5 }

/-- A cell definition with power data but an empty alias string. -/
def cellNoAlias : Cell :=
  { name := "sky130_pwr", «alias» := "", width := 1, height := 1,
    cell_type := "physical", power := some ⟨5⟩ }

/-- A technology whose only cell carries power data under an empty
alias. -/
def techE : Technology :=
  { technology := "sky130", version := "1.0", description := "empty alias example",
    units := {}, site := siteW, cells := [cellNoAlias] }

/-- A placed instance of the empty-alias powered cell. -/
def instE : CellInstance :=
  { name := "p0", cell_type := "sky130_pwr", x := 0, y := 0, width := 1, height := 1 }

/-- Example placed instances for the statistics witness. -/
def instN0 : CellInstance :=
  { name := "n0", cell_type := "sky130_nand2", x := 0, y := 0, width := 1, height := 1 }

def instI0 : CellInstance :=
  { name := "i0", cell_type := "sky130_inv", x := 1, y := 0, width := 1, height := 1 }

def instT0 : CellInstance :=
  { name := "t0", cell_type := "sky130_tap", x := 0, y := 1, width := 1, height := 1 }

/-! # Theorems -/

/-- Python's `int()` truncates a rational toward zero. -/
theorem python_int_eq_trunc (q : ℚ) : python_int q = trunc_toward_zero q := by
  unfold python_int trunc_toward_zero
  by_cases h : 0 ≤ q
  · rw [if_pos h, Rat.floor_def, Int.tdiv_eq_ediv (Rat.num_nonneg.mpr h) (by positivity)]
  · rw [if_neg h]
    have h2 : q.num.tdiv (q.den : ℤ) = -((-q.num).tdiv q.den) := by
      rw [Int.neg_tdiv]; ring
    have h5 : ¬ 0 ≤ q.num := fun hc => h (Rat.num_nonneg.mp hc)
    have h3 : ((-q.num).tdiv (q.den : ℤ)) = (-q.num) / (q.den : ℤ) :=
      Int.tdiv_eq_ediv (by omega) (by positivity)
    have h4 : ⌈q⌉ = -⌊-q⌋ := by rw [Int.floor_neg]; ring
    rw [h2, h3, h4, Rat.floor_def, Rat.neg_num, Rat.neg_den]

/-- C9: every coordinate value written to the integer-unit DEF output
(the component placement points and the pin rectangle corners) equals
the corresponding instance's or pin's physical coordinate multiplied by
the technology's distance-unit scale and truncated toward zero. -/
theorem c9_def_coordinates_truncated (units : ℤ) (components : List CellInstance)
    (pins : List PlacedPin) :
    write_def_components units components = components.map (fun c =>
      { name := c.name
        cell_type := c.cell_type
        x := trunc_toward_zero (c.x * units)
        y := trunc_toward_zero (c.y * units) }) ∧
    write_def_pins units pins = pins.map (fun p =>
      { name := p.name
        direction := p.direction.toUpper
        x1 := trunc_toward_zero (p.x * units)
        y1 := trunc_toward_zero (p.y * units)
        x2 := trunc_toward_zero ((p.x + p.width) * units)
        y2 := trunc_toward_zero ((p.y + p.height) * units) }) := by
  constructor
  · unfold write_def_components
    exact List.map_congr_left (fun c _ => by rw [python_int_eq_trunc, python_int_eq_trunc])
  · unfold write_def_pins
    exact List.map_congr_left (fun p _ => by
      rw [python_int_eq_trunc, python_int_eq_trunc, python_int_eq_trunc, python_int_eq_trunc])

/-- C10: constructing a `FabricConfiguration` whose I/O ring has a
non-empty edges map while margins are absent raises, regardless of
whether any edge actually declares pins. -/
theorem c10_margins_required_on_edges (c : FabricConfiguration) (ir : IORing)
    (hir : c.io_ring = some ir) (hedges : ir.edges ≠ []) (hm : c.margins = none) :
    ∃ msg, c.post_init_check = .error msg := by
  refine ⟨"Margins must be specified when I/O pins are defined", ?_⟩
  unfold FabricConfiguration.post_init_check
  rw [hir]
  exact if_pos ⟨hedges, hm⟩

/-- Witness for C10: a configuration whose single I/O edge declares an
empty pin list and no margins is still rejected. -/
theorem c10_margins_required_on_edges_witness :
    ({ name := "fab"
       array_dimensions := ⟨2, 2⟩
       tile_configuration := ⟨"basic", []⟩
       io_ring := some { pin_size := {}, edges := [("north", { spacing := "auto", pins := [] })] }
       margins := none } : FabricConfiguration).io_ring =
        some { pin_size := {}, edges := [("north", { spacing := "auto", pins := [] })] } ∧
    ([("north", ({ spacing := "auto", pins := [] } : IOEdge))] : List (String × IOEdge)) ≠ [] ∧
    ∃ msg,
      ({ name := "fab"
         array_dimensions := ⟨2, 2⟩
         tile_configuration := ⟨"basic", []⟩
         io_ring := some { pin_size := {}, edges := [("north", { spacing := "auto", pins := [] })] }
         margins := none } : FabricConfiguration).post_init_check = .error msg :=
  ⟨rfl, by decide, c10_margins_required_on_edges _ _ rfl (by decide) rfl⟩

/-- Decompose a successful `edge_contribs` into its four side lookups. -/
theorem edge_contribs_ok_parts (tech : Technology) (e : EdgeCells) (l r t b : ℕ)
    (h : edge_contribs tech (some e) = .ok (l, r, t, b)) :
    edge_cell_contrib tech e.left (fun c => c.width) = .ok l ∧
    edge_cell_contrib tech e.right (fun c => c.width) = .ok r ∧
    edge_cell_contrib tech e.top (fun c => c.height) = .ok t ∧
    edge_cell_contrib tech e.bottom (fun c => c.height) = .ok b := by
  unfold edge_contribs at h
  dsimp only at h
  cases hl : edge_cell_contrib tech e.left (fun c => c.width) <;> rw [hl] at h
  case error => exact absurd h (by simp [Bind.bind, Except.bind])
  simp only [Bind.bind, Except.bind] at h
  cases hr : edge_cell_contrib tech e.right (fun c => c.width) <;> rw [hr] at h
  case error => exact absurd h (by simp [Except.bind])
  simp only [Except.bind] at h
  cases ht : edge_cell_contrib tech e.top (fun c => c.height) <;> rw [ht] at h
  case error => exact absurd h (by simp [Except.bind])
  simp only [Except.bind] at h
  cases hb : edge_cell_contrib tech e.bottom (fun c => c.height) <;> rw [hb] at h
  case error => exact absurd h (by simp [Except.bind])
  simp only [Except.bind] at h
  obtain ⟨h1, h2, h3, h4⟩ : _ ∧ _ ∧ _ ∧ _ := by
    have := Except.ok.inj h
    simp only [Prod.mk.injEq] at this
    exact this
  exact ⟨by rw [h1], by rw [h2], by rw [h3], by rw [h4]⟩

/-- An absent side contributes zero. -/
theorem edge_cell_contrib_none (tech : Technology) (f : Cell → ℕ) :
    edge_cell_contrib tech none f = .ok 0 := rfl

/-- A disabled side contributes zero. -/
theorem edge_cell_contrib_disabled (tech : Technology) (c : EdgeCellConfig)
    (hc : c.enable = false) (f : Cell → ℕ) :
    edge_cell_contrib tech (some c) f = .ok 0 := by
  simp [edge_cell_contrib, hc]

/-- C3: the dimension calculator produces exactly the specification's
formulas: fabric extent = array size × default tile size, core extent
adds the enabled edge-cell contributions before converting to physical
units, die extent adds twice the margins; absent or disabled edges and
absent margins contribute zero. -/
theorem c3_dimension_formulas (tech : Technology) (tiles : TileDefinitions)
    (cfg : FabricConfiguration) (dt : Tile) (ewl ewr eht ehb : ℕ)
    (hdt : tiles.get_tile_by_name cfg.tile_configuration.default_tile = some dt)
    (hec : edge_contribs tech cfg.edge_cells = .ok (ewl, ewr, eht, ehb)) :
    calculate_dimensions tech tiles cfg = .ok
      { tile_array_rows := cfg.array_dimensions.rows
        tile_array_cols := cfg.array_dimensions.cols
        fabric_rows := cfg.array_dimensions.rows * dt.height
        fabric_sites := cfg.array_dimensions.cols * dt.width
        core_width := ((cfg.array_dimensions.cols * dt.width + ewl + ewr : ℕ) : ℚ) * tech.site.width
        core_height := ((cfg.array_dimensions.rows * dt.height + eht + ehb : ℕ) : ℚ) * tech.site.height
        die_width := ((cfg.array_dimensions.cols * dt.width + ewl + ewr : ℕ) : ℚ) * tech.site.width +
          2 * (match cfg.margins with | some m => m.horizontal | none => 0)
        die_height := ((cfg.array_dimensions.rows * dt.height + eht + ehb : ℕ) : ℚ) * tech.site.height +
          2 * (match cfg.margins with | some m => m.vertical | none => 0)
        margin_horizontal := match cfg.margins with | some m => m.horizontal | none => 0
        margin_vertical := match cfg.margins with | some m => m.vertical | none => 0 } ∧
    (cfg.edge_cells = none → ewl = 0 ∧ ewr = 0 ∧ eht = 0 ∧ ehb = 0) ∧
    (∀ e, cfg.edge_cells = some e →
      ((e.left = none ∨ ∃ c, e.left = some c ∧ c.enable = false) → ewl = 0) ∧
      ((e.right = none ∨ ∃ c, e.right = some c ∧ c.enable = false) → ewr = 0) ∧
      ((e.top = none ∨ ∃ c, e.top = some c ∧ c.enable = false) → eht = 0) ∧
      ((e.bottom = none ∨ ∃ c, e.bottom = some c ∧ c.enable = false) → ehb = 0)) ∧
    (cfg.margins = none →
      (match cfg.margins with | some m => m.horizontal | none => (0 : ℚ)) = 0 ∧
      (match cfg.margins with | some m => m.vertical | none => (0 : ℚ)) = 0) := by
  refine ⟨?_, ?_, ?_, ?_⟩
  · unfold calculate_dimensions
    rw [hdt]
    show (edge_contribs tech cfg.edge_cells).bind _ = _
    rw [hec]
    rfl
  · intro hnone
    rw [hnone] at hec
    have h0 : ((0, 0, 0, 0) : ℕ × ℕ × ℕ × ℕ) = (ewl, ewr, eht, ehb) := Except.ok.inj hec
    simp only [Prod.mk.injEq] at h0
    exact ⟨h0.1.symm, h0.2.1.symm, h0.2.2.1.symm, h0.2.2.2.symm⟩
  · intro e he
    rw [he] at hec
    obtain ⟨hl, hr, ht, hb⟩ := edge_contribs_ok_parts tech e ewl ewr eht ehb hec
    refine ⟨?_, ?_, ?_, ?_⟩
    · rintro (h0 | ⟨c, hc, hcf⟩)
      · rw [h0, edge_cell_contrib_none] at hl; exact (Except.ok.inj hl).symm
      · rw [hc, edge_cell_contrib_disabled tech c hcf] at hl; exact (Except.ok.inj hl).symm
    · rintro (h0 | ⟨c, hc, hcf⟩)
      · rw [h0, edge_cell_contrib_none] at hr; exact (Except.ok.inj hr).symm
      · rw [hc, edge_cell_contrib_disabled tech c hcf] at hr; exact (Except.ok.inj hr).symm
    · rintro (h0 | ⟨c, hc, hcf⟩)
      · rw [h0, edge_cell_contrib_none] at ht; exact (Except.ok.inj ht).symm
      · rw [hc, edge_cell_contrib_disabled tech c hcf] at ht; exact (Except.ok.inj ht).symm
    · rintro (h0 | ⟨c, hc, hcf⟩)
      · rw [h0, edge_cell_contrib_none] at hb; exact (Except.ok.inj hb).symm
      · rw [hc, edge_cell_contrib_disabled tech c hcf] at hb; exact (Except.ok.inj hb).symm
  · intro hm
    rw [hm]
    exact ⟨rfl, rfl⟩

/-- Witness for C3: concrete dimensions of `cfgC3` over the example
technology and tile library. -/
theorem c3_dimension_formulas_witness :
    tilesW.get_tile_by_name cfgC3.tile_configuration.default_tile = some tileBasic ∧
    edge_contribs techW cfgC3.edge_cells = .ok (1, 0, 0, 1) ∧
    calculate_dimensions techW tilesW cfgC3 = .ok
      { tile_array_rows := 2
        tile_array_cols := 2
        fabric_rows := 2
        fabric_sites := 6
        core_width := 161/50
        core_height := 204/25
        die_width := 661/50
        die_height := 554/25
        margin_horizontal := 5
        margin_vertical := 7 } := by
  refine ⟨by decide, by decide, ?_⟩
  rw [(c3_dimension_formulas techW tilesW cfgC3 tileBasic 1 0 0 1 (by decide) (by decide)).1]
  simp only [cfgC3, techW, tileBasic, siteW, FabricDimensions.mk.injEq]
  norm_num

/-! ## C5: region validation -/

/-- For regions of positive width and height, the source's overlap
predicate coincides with positive-area intersection. -/
theorem regions_overlap_iff_positive_area (a b : Region)
    (ha : 0 < a.width ∧ 0 < a.height) (hb : 0 < b.width ∧ 0 < b.height) :
    regions_overlap a b = true ↔ positive_area_intersect a b := by
  unfold regions_overlap positive_area_intersect
  simp only [Bool.not_eq_true', Bool.or_eq_false_iff, decide_eq_false_iff_not, not_le]
  omega

/-- The region validator succeeds iff every region is in bounds and no
two regions satisfy the source's overlap predicate. -/
theorem validate_regions_ok_iff (array_rows array_cols : ℕ) (regions : List Region) :
    validate_regions array_rows array_cols regions = .ok () ↔
      (∀ r ∈ regions, region_in_bounds array_rows array_cols r) ∧
      List.Pairwise (fun a b => regions_overlap a b = false) regions := by
  induction regions with
  | nil => simp [validate_regions]
  | cons r rest ih =>
    unfold validate_regions
    by_cases hbnd : array_rows < r.row_start + r.height ∨ array_cols < r.col_start + r.width
    · rw [if_pos hbnd]
      constructor
      · intro h; exact absurd h (by simp)
      · rintro ⟨hall, _⟩
        have := hall r (List.mem_cons_self r rest)
        unfold region_in_bounds at this
        omega
    · rw [if_neg hbnd]
      cases hf : rest.find? (fun r2 => regions_overlap r r2) with
      | some r2 =>
          constructor
          · intro h; exact absurd h (by simp)
          · rintro ⟨_, hpw⟩
            rw [List.pairwise_cons] at hpw
            have hov := List.find?_some hf
            have := hpw.1 r2 (List.mem_of_find?_eq_some hf)
            rw [this] at hov
            exact absurd hov (by simp)
      | none =>
          rw [ih]
          constructor
          · rintro ⟨hall, hpw⟩
            refine ⟨?_, List.Pairwise.cons ?_ hpw⟩
            · intro x hx
              rcases List.mem_cons.mp hx with rfl | hx'
              · exact ⟨by omega, by omega⟩
              · exact hall x hx'
            · intro b hbmem
              have := List.find?_eq_none.mp hf b hbmem
              simpa using this
          · rintro ⟨hall, hpw⟩
            rw [List.pairwise_cons] at hpw
            exact ⟨fun x hx => hall x (List.mem_cons_of_mem _ hx), hpw.2⟩

/-- C5 (amended): for regions of positive width and height, region
validation rejects the specification iff some region's rectangle does
not lie entirely within the array bounds or some pair of distinct
regions' rectangles intersects on a positive area; regions that merely
share a boundary edge are accepted.  (The restriction to positive
dimensions is forced by the counterexample below.) -/
theorem c5_region_validation (array_rows array_cols : ℕ) (regions : List Region)
    (hpos : ∀ r ∈ regions, 0 < r.width ∧ 0 < r.height) :
    validate_regions array_rows array_cols regions = .ok () ↔
      (∀ r ∈ regions, region_in_bounds array_rows array_cols r) ∧
      List.Pairwise (fun a b => ¬ positive_area_intersect a b) regions := by
  rw [validate_regions_ok_iff]
  constructor
  · rintro ⟨hall, hpw⟩
    refine ⟨hall, hpw.imp_of_mem ?_⟩
    intro a b ha hb hab
    rw [← regions_overlap_iff_positive_area a b (hpos a ha) (hpos b hb), hab]
    simp
  · rintro ⟨hall, hpw⟩
    refine ⟨hall, hpw.imp_of_mem ?_⟩
    intro a b ha hb hab
    rw [← Bool.not_eq_true, regions_overlap_iff_positive_area a b (hpos a ha) (hpos b hb)]
    exact hab

/-- Counterexample to C5 as stated: both regions lie in bounds and no
pair intersects on a positive area (one of them is a degenerate
zero-width rectangle), yet validation rejects the pair. -/
theorem c5_region_validation_counterexample :
    region_in_bounds 5 5 regionA ∧ region_in_bounds 5 5 regionB ∧
    ¬ positive_area_intersect regionA regionB ∧
    ¬ positive_area_intersect regionB regionA ∧
    validate_regions 5 5 [regionA, regionB] ≠ .ok () := by
  refine ⟨by decide, by decide, by decide, by decide, ?_⟩
  intro h
  rw [show validate_regions 5 5 [regionA, regionB] =
    .error "Regions A and B overlap" from by decide] at h
  exact absurd h (by simp)

/-- Witness for C5: two abutting positive-area regions in a 2×2 array
are accepted, and the amended equivalence evaluates on them. -/
theorem c5_region_validation_witness :
    (∀ r ∈ [(⟨"A", "basic", 0, 0, 2, 1⟩ : Region), ⟨"C", "basic", 1, 0, 2, 1⟩],
      0 < r.width ∧ 0 < r.height) ∧
    (validate_regions 2 2 [(⟨"A", "basic", 0, 0, 2, 1⟩ : Region), ⟨"C", "basic", 1, 0, 2, 1⟩] = .ok () ↔
      (∀ r ∈ [(⟨"A", "basic", 0, 0, 2, 1⟩ : Region), ⟨"C", "basic", 1, 0, 2, 1⟩],
        region_in_bounds 2 2 r) ∧
      List.Pairwise (fun a b => ¬ positive_area_intersect a b)
        [(⟨"A", "basic", 0, 0, 2, 1⟩ : Region), ⟨"C", "basic", 1, 0, 2, 1⟩]) :=
  ⟨by decide, c5_region_validation 2 2 _ (by decide)⟩

/-! ## C1: resolved tile grid -/

theorem override_row_cells_length (r : Region) :
    ∀ (ci : ℕ) (row : List String), (override_row_cells r ci row).length = row.length := by
  intro ci row
  induction row generalizing ci with
  | nil => rfl
  | cons v rest ih => simp [override_row_cells, ih]

theorem override_row_cells_getD (r : Region) :
    ∀ (row : List String) (ci0 i : ℕ), i < row.length →
      (override_row_cells r ci0 row).getD i "" =
        if r.col_start ≤ ci0 + i ∧ ci0 + i < r.col_start + r.width then r.tile_type
        else row.getD i "" := by
  intro row
  induction row with
  | nil => intro ci0 i h; simp at h
  | cons v rest ih =>
      intro ci0 i h
      cases i with
      | zero => simp [override_row_cells]
      | succ j =>
          simp only [override_row_cells, List.getD_cons_succ]
          rw [ih (ci0 + 1) j (by simpa using h)]
          have hx : ci0 + 1 + j = ci0 + (j + 1) := by omega
          rw [hx]

theorem apply_region_length (r : Region) :
    ∀ (ri0 : ℕ) (grid : List (List String)), (apply_region r ri0 grid).length = grid.length := by
  intro ri0 grid
  induction grid generalizing ri0 with
  | nil => rfl
  | cons row rest ih => simp [apply_region, ih]

theorem apply_region_row_length (r : Region) :
    ∀ (grid : List (List String)) (ri0 i : ℕ),
      ((apply_region r ri0 grid).getD i []).length = (grid.getD i []).length := by
  intro grid
  induction grid with
  | nil => intro ri0 i; rfl
  | cons row rest ih =>
      intro ri0 i
      cases i with
      | zero =>
          by_cases hc : r.row_start ≤ ri0 ∧ ri0 < r.row_start + r.height <;>
            simp [apply_region, hc, override_row_cells_length]
      | succ j =>
          simp only [apply_region, List.getD_cons_succ]
          exact ih (ri0 + 1) j

theorem apply_region_getD (r : Region) :
    ∀ (grid : List (List String)) (ri0 i j : ℕ), i < grid.length →
      j < (grid.getD i []).length →
      ((apply_region r ri0 grid).getD i []).getD j "" =
        if region_covers r (ri0 + i) j then r.tile_type
        else (grid.getD i []).getD j "" := by
  intro grid
  induction grid with
  | nil => intro ri0 i j h; simp at h
  | cons row rest ih =>
      intro ri0 i j hi hj
      cases i with
      | zero =>
          simp only [apply_region, List.getD_cons_zero]
          simp only [List.getD_cons_zero] at hj
          by_cases hrow : r.row_start ≤ ri0 ∧ ri0 < r.row_start + r.height
          · rw [if_pos hrow, override_row_cells_getD r row 0 j hj]
            by_cases hcol : r.col_start ≤ 0 + j ∧ 0 + j < r.col_start + r.width
            · rw [if_pos hcol, if_pos (by unfold region_covers; omega)]
            · rw [if_neg hcol, if_neg (by unfold region_covers; omega)]
          · rw [if_neg hrow, if_neg (by unfold region_covers; omega)]
      | succ k =>
          simp only [apply_region, List.getD_cons_succ]
          simp only [List.getD_cons_succ] at hj
          rw [ih (ri0 + 1) k j (by simpa using hi) hj]
          have hx : ri0 + 1 + k = ri0 + (k + 1) := by omega
          rw [hx]

theorem apply_regional_overrides_length (regions : List Region) :
    ∀ (grid : List (List String)),
      (apply_regional_overrides grid regions).length = grid.length := by
  induction regions with
  | nil => intro grid; rfl
  | cons r rs ih =>
      intro grid
      show (apply_regional_overrides (apply_region r 0 grid) rs).length = _
      rw [ih, apply_region_length]

theorem apply_regional_overrides_row_length (regions : List Region) :
    ∀ (grid : List (List String)) (i : ℕ),
      ((apply_regional_overrides grid regions).getD i []).length = (grid.getD i []).length := by
  induction regions with
  | nil => intro grid i; rfl
  | cons r rs ih =>
      intro grid i
      show ((apply_regional_overrides (apply_region r 0 grid) rs).getD i []).length = _
      rw [ih, apply_region_row_length]

theorem last_cover_foldl (ri ci : ℕ) :
    ∀ (rs : List Region) (a : Option String),
      rs.foldl (fun acc r => if region_covers r ri ci then some r.tile_type else acc) a =
        match last_cover rs ri ci with
        | some s => some s
        | none => a := by
  intro rs
  induction rs with
  | nil => intro a; rfl
  | cons r rest ih =>
      intro a
      show List.foldl _ (if region_covers r ri ci then some r.tile_type else a) rest = _
      rw [ih]
      have hr : last_cover (r :: rest) ri ci =
          List.foldl _ (if region_covers r ri ci then some r.tile_type else none) rest := rfl
      rw [hr, ih]
      by_cases hc : region_covers r ri ci <;>
        cases hlast : last_cover rest ri ci <;> simp [hc]

theorem last_cover_cons (r : Region) (rs : List Region) (ri ci : ℕ) :
    last_cover (r :: rs) ri ci =
      match last_cover rs ri ci with
      | some s => some s
      | none => if region_covers r ri ci then some r.tile_type else none := by
  show List.foldl _ (if region_covers r ri ci then some r.tile_type else none) rs = _
  rw [last_cover_foldl]

theorem apply_regional_overrides_getD (ri ci : ℕ) :
    ∀ (regions : List Region) (grid : List (List String)), ri < grid.length →
      ci < (grid.getD ri []).length →
      ((apply_regional_overrides grid regions).getD ri []).getD ci "" =
        match last_cover regions ri ci with
        | some s => s
        | none => (grid.getD ri []).getD ci "" := by
  intro regions
  induction regions with
  | nil => intro grid hri hci; rfl
  | cons r rs ih =>
      intro grid hri hci
      show ((apply_regional_overrides (apply_region r 0 grid) rs).getD ri []).getD ci "" = _
      rw [ih (apply_region r 0 grid) (by rw [apply_region_length]; exact hri)
        (by rw [apply_region_row_length]; exact hci)]
      rw [last_cover_cons]
      have hentry := apply_region_getD r grid 0 ri ci hri hci
      rw [Nat.zero_add] at hentry
      cases hlast : last_cover rs ri ci with
      | some s => rfl
      | none =>
          rw [hentry]
          by_cases hc : region_covers r ri ci <;> simp [hc]

/-- Two regions covering a common grid cell satisfy the source's
overlap predicate. -/
theorem covers_overlap (a b : Region) (ri ci : ℕ)
    (ha : region_covers a ri ci) (hb : region_covers b ri ci) :
    regions_overlap a b = true := by
  unfold region_covers at ha hb
  unfold regions_overlap
  simp only [Bool.not_eq_true', Bool.or_eq_false_iff, decide_eq_false_iff_not, not_le]
  omega

theorem last_cover_none_of_not_covered (ri ci : ℕ) :
    ∀ (rs : List Region), (∀ r ∈ rs, ¬ region_covers r ri ci) →
      last_cover rs ri ci = none := by
  intro rs
  induction rs with
  | nil => intro _; rfl
  | cons r rest ih =>
      intro h
      rw [last_cover_cons, ih (fun x hx => h x (List.mem_cons_of_mem _ hx))]
      simp [h r (List.mem_cons_self r rest)]

/-- Under pairwise non-overlap, the last covering region of a cell is
the unique covering region. -/
theorem last_cover_unique (ri ci : ℕ) :
    ∀ (regions : List Region),
      List.Pairwise (fun a b => regions_overlap a b = false) regions →
      ∀ r ∈ regions, region_covers r ri ci →
      last_cover regions ri ci = some r.tile_type := by
  intro regions
  induction regions with
  | nil => intro _ r hr; cases hr
  | cons r0 rs ih =>
      intro hpw r hr hc
      rw [List.pairwise_cons] at hpw
      rw [last_cover_cons]
      rcases List.mem_cons.mp hr with rfl | hmem
      · have hnone : last_cover rs ri ci = none := by
          apply last_cover_none_of_not_covered
          intro b hb hcb
          have hfalse := hpw.1 b hb
          rw [covers_overlap r b ri ci hc hcb] at hfalse
          exact absurd hfalse (by simp)
        rw [hnone]
        simp [hc]
      · rw [ih hpw.2 r hmem hc]

theorem getD_replicate {α : Type _} (a d : α) :
    ∀ (n i : ℕ), i < n → (List.replicate n a).getD i d = a := by
  intro n
  induction n with
  | zero => intro i h; omega
  | succ m ih =>
      intro i h
      cases i with
      | zero => rfl
      | succ j => simpa [List.replicate] using ih j (by omega)

/-- C1: for a validated specification whose default tile and region
tile types exist in the library, the resolved grid is a rows×cols
matrix; every cell covered by a region holds that region's tile-type
name, every uncovered cell holds the default tile name, and every
entry names a tile of the library. -/
theorem c1_resolved_tile_grid (tiles : TileDefinitions) (array_rows array_cols : ℕ)
    (default_tile : String) (regions : List Region)
    (hval : validate_regions array_rows array_cols regions = .ok ())
    (hdef : ∃ t ∈ tiles.tiles, t.name = default_tile)
    (hreg : ∀ r ∈ regions, ∃ t ∈ tiles.tiles, t.name = r.tile_type) :
    (apply_regional_overrides (initialize_tile_array array_rows array_cols default_tile)
        regions).length = array_rows ∧
    (∀ row ∈ apply_regional_overrides (initialize_tile_array array_rows array_cols default_tile)
        regions, row.length = array_cols) ∧
    (∀ ri ci, ri < array_rows → ci < array_cols →
      (∀ r ∈ regions, region_covers r ri ci →
        ((apply_regional_overrides (initialize_tile_array array_rows array_cols default_tile)
          regions).getD ri []).getD ci "" = r.tile_type) ∧
      ((∀ r ∈ regions, ¬ region_covers r ri ci) →
        ((apply_regional_overrides (initialize_tile_array array_rows array_cols default_tile)
          regions).getD ri []).getD ci "" = default_tile) ∧
      (∃ t ∈ tiles.tiles, t.name =
        ((apply_regional_overrides (initialize_tile_array array_rows array_cols default_tile)
          regions).getD ri []).getD ci "")) := by
  obtain ⟨hbnd, hpw⟩ := (validate_regions_ok_iff array_rows array_cols regions).mp hval
  have hlen : (apply_regional_overrides (initialize_tile_array array_rows array_cols default_tile)
      regions).length = array_rows := by
    rw [apply_regional_overrides_length]
    simp [initialize_tile_array]
  refine ⟨hlen, ?_, ?_⟩
  · intro row hrow
    obtain ⟨i, hi, hrowi⟩ := List.getElem_of_mem hrow
    have : row = (apply_regional_overrides (initialize_tile_array array_rows array_cols
        default_tile) regions).getD i [] := by
      rw [List.getD_eq_getElem _ _ hi, hrowi]
    rw [this, apply_regional_overrides_row_length]
    rw [hlen] at hi
    unfold initialize_tile_array
    rw [getD_replicate _ _ _ _ hi]
    simp
  · intro ri ci hri hci
    have hrib : ri < (initialize_tile_array array_rows array_cols default_tile).length := by
      simp [initialize_tile_array]; exact hri
    have hcib : ci < ((initialize_tile_array array_rows array_cols default_tile).getD ri []).length := by
      unfold initialize_tile_array
      rw [getD_replicate _ _ _ _ hri]
      simp
      exact hci
    have hinit : ((initialize_tile_array array_rows array_cols default_tile).getD ri []).getD ci ""
        = default_tile := by
      unfold initialize_tile_array
      rw [getD_replicate _ _ _ _ hri, getD_replicate _ _ _ _ hci]
    have hmain := apply_regional_overrides_getD ri ci regions _ hrib hcib
    refine ⟨?_, ?_, ?_⟩
    · intro r hr hc
      rw [hmain, last_cover_unique ri ci regions hpw r hr hc]
    · intro hnone
      rw [hmain, last_cover_none_of_not_covered ri ci regions hnone, hinit]
    · by_cases hcov : ∃ r ∈ regions, region_covers r ri ci
      · obtain ⟨r, hr, hc⟩ := hcov
        rw [hmain, last_cover_unique ri ci regions hpw r hr hc]
        exact hreg r hr
      · push_neg at hcov
        rw [hmain, last_cover_none_of_not_covered ri ci regions hcov, hinit]
        exact hdef

/-- Witness for C1: a 2×2 array with one 1×1 region override. -/
theorem c1_resolved_tile_grid_witness :
    validate_regions 2 2 [regionR] = .ok () ∧
    (∃ t ∈ tilesW.tiles, t.name = "basic") ∧
    (∀ r ∈ [regionR], ∃ t ∈ tilesW.tiles, t.name = r.tile_type) ∧
    ((apply_regional_overrides (initialize_tile_array 2 2 "basic") [regionR]).length = 2 ∧
     (∀ row ∈ apply_regional_overrides (initialize_tile_array 2 2 "basic") [regionR],
       row.length = 2) ∧
     (∀ ri ci, ri < 2 → ci < 2 →
       (∀ r ∈ [regionR], region_covers r ri ci →
         ((apply_regional_overrides (initialize_tile_array 2 2 "basic")
           [regionR]).getD ri []).getD ci "" = r.tile_type) ∧
       ((∀ r ∈ [regionR], ¬ region_covers r ri ci) →
         ((apply_regional_overrides (initialize_tile_array 2 2 "basic")
           [regionR]).getD ri []).getD ci "" = "basic") ∧
       (∃ t ∈ tilesW.tiles, t.name =
         ((apply_regional_overrides (initialize_tile_array 2 2 "basic")
           [regionR]).getD ri []).getD ci ""))) :=
  ⟨by decide, by decide, by decide,
    c1_resolved_tile_grid tilesW 2 2 "basic" [regionR] (by decide) (by decide) (by decide)⟩

/-! ## C6: tile row width validation -/

/-- When every cell type of a row resolves, the computed row width is
the spec-side sum of `count × width`. -/
theorem calc_row_width_ok (tech : Technology) :
    ∀ (cells : List CellSpec), (∀ cs ∈ cells, (tech.get_cell_by_alias cs.type).isSome) →
      calc_row_width tech cells = .ok (row_width_sum tech cells) := by
  intro cells
  induction cells with
  | nil => intro _; rfl
  | cons cs rest ih =>
      intro h
      obtain ⟨cd, hcd⟩ := Option.isSome_iff_exists.mp (h cs (List.mem_cons_self cs rest))
      unfold calc_row_width
      rw [hcd, ih (fun x hx => h x (List.mem_cons_of_mem _ hx))]
      unfold row_width_sum
      simp [hcd, Except.map]

/-- Unfolding of `check_later_rows` on a cons, with the head row's width computed. -/
theorem check_later_rows_cons (tech : Technology) (t : Tile) (r0 : TileRow) (fw : ℕ)
    (r : TileRow) (rest : List TileRow) (i w : ℕ)
    (hcalc : calc_row_width tech r.cells = .ok w) :
    check_later_rows tech t r0 fw (r :: rest) i =
      if w ≠ fw then .error (row_mismatch_msg tech t r0 r i fw w)
      else check_later_rows tech t r0 fw rest (i + 1) := by
  show (calc_row_width tech r.cells >>= fun w =>
    if w ≠ fw then .error (row_mismatch_msg tech t r0 r i fw w)
    else check_later_rows tech t r0 fw rest (i + 1)) = _
  rw [hcalc]
  rfl

/-- Unfolding of `Tile.validate_row_widths` on a non-empty row list, with the first
row's width computed. -/
theorem validate_row_widths_cons (tech : Technology) (t : Tile) (r0 : TileRow)
    (rest : List TileRow) (w : ℕ) (hrows : t.rows = r0 :: rest)
    (hcalc : calc_row_width tech r0.cells = .ok w) :
    t.validate_row_widths tech =
      if w ≠ t.width then .error (declared_mismatch_msg t w)
      else check_later_rows tech t r0 w rest 1 := by
  unfold Tile.validate_row_widths
  rw [hrows]
  show (calc_row_width tech r0.cells >>= fun first_width =>
    if first_width ≠ t.width then .error (declared_mismatch_msg t first_width)
    else check_later_rows tech t r0 first_width rest 1) = _
  rw [hcalc]
  rfl

theorem check_later_rows_ok_iff (tech : Technology) (t : Tile) (r0 : TileRow) (fw : ℕ) :
    ∀ (rest : List TileRow) (i : ℕ),
      (∀ row ∈ rest, ∀ cs ∈ row.cells, (tech.get_cell_by_alias cs.type).isSome) →
      (check_later_rows tech t r0 fw rest i = .ok () ↔
        ∀ r ∈ rest, row_width_sum tech r.cells = fw) := by
  intro rest
  induction rest with
  | nil => intro i _; simp [check_later_rows]
  | cons r rest' ih =>
      intro i h
      have hr := calc_row_width_ok tech r.cells (h r (List.mem_cons_self r rest'))
      rw [check_later_rows_cons tech t r0 fw r rest' i _ hr]
      by_cases hw : row_width_sum tech r.cells ≠ fw
      · rw [if_pos hw]
        constructor
        · intro hcontra; exact absurd hcontra (by simp)
        · intro hall; exact absurd (hall r (List.mem_cons_self r rest')) hw
      · rw [if_neg hw]
        push_neg at hw
        rw [ih (i + 1) (fun x hx => h x (List.mem_cons_of_mem _ hx))]
        constructor
        · intro hall x hx
          rcases List.mem_cons.mp hx with rfl | hx'
          · exact hw
          · exact hall x hx'
        · intro hall x hx
          exact hall x (List.mem_cons_of_mem _ hx)

theorem check_later_rows_error (tech : Technology) (t : Tile) (r0 : TileRow) (fw : ℕ) :
    ∀ (rest : List TileRow) (i : ℕ) (m : String),
      (∀ row ∈ rest, ∀ cs ∈ row.cells, (tech.get_cell_by_alias cs.type).isSome) →
      check_later_rows tech t r0 fw rest i = .error m →
      ∃ i' r, r ∈ rest ∧ row_width_sum tech r.cells ≠ fw ∧
        m = row_mismatch_msg tech t r0 r i' fw (row_width_sum tech r.cells) := by
  intro rest
  induction rest with
  | nil => intro i m _ h; exact absurd h (by simp [check_later_rows])
  | cons r rest' ih =>
      intro i m h hck
      have hr := calc_row_width_ok tech r.cells (h r (List.mem_cons_self r rest'))
      rw [check_later_rows_cons tech t r0 fw r rest' i _ hr] at hck
      by_cases hw : row_width_sum tech r.cells ≠ fw
      · rw [if_pos hw] at hck
        refine ⟨i, r, List.mem_cons_self r rest', hw, ?_⟩
        simpa using (Except.error.inj hck).symm
      · rw [if_neg hw] at hck
        obtain ⟨i', r', hm, hne, heq⟩ :=
          ih (i + 1) m (fun x hx => h x (List.mem_cons_of_mem _ hx)) hck
        exact ⟨i', r', List.mem_cons_of_mem _ hm, hne, heq⟩

/-- Both per-row breakdowns occur literally inside a row-mismatch
error message. -/
theorem breakdowns_in_row_mismatch_msg (tech : Technology) (t : Tile) (r0 r : TileRow)
    (i fw w : ℕ) :
    (String.intercalate " + " (row_breakdown tech r0.cells)).toList <:+:
      (row_mismatch_msg tech t r0 r i fw w).toList ∧
    (String.intercalate " + " (row_breakdown tech r.cells)).toList <:+:
      (row_mismatch_msg tech t r0 r i fw w).toList := by
  constructor
  · refine ⟨("Tile " ++ t.name ++ ": Row " ++ toString i ++ " width " ++ toString w ++
      " sites does not match first row width " ++ toString fw ++ " sites\n" ++
      "Row 0: ").toList,
      (" = " ++ toString fw ++ "\n" ++ "Row " ++ toString i ++ ": " ++
        String.intercalate " + " (row_breakdown tech r.cells) ++ " = " ++ toString w).toList, ?_⟩
    show _ ++ _ ++ _ = (row_mismatch_msg tech t r0 r i fw w).data
    unfold row_mismatch_msg
    simp [String.data_append, String.toList]
  · refine ⟨("Tile " ++ t.name ++ ": Row " ++ toString i ++ " width " ++ toString w ++
      " sites does not match first row width " ++ toString fw ++ " sites\n" ++
      "Row 0: " ++ String.intercalate " + " (row_breakdown tech r0.cells) ++ " = " ++
      toString fw ++ "\n" ++ "Row " ++ toString i ++ ": ").toList,
      (" = " ++ toString w).toList, ?_⟩
    show _ ++ _ ++ _ = (row_mismatch_msg tech t r0 r i fw w).data
    unfold row_mismatch_msg
    simp [String.data_append, String.toList]

/-- C6 (amended): when every cell type of the tile resolves, validation
accepts the tile iff every row's `count × width` sum equals the
declared tile width.  A rejection is either the first row disagreeing
with the declared width — reported with the two totals only — or a
later row disagreeing with the first row — reported with the literal
per-row breakdowns of both rows.  (The claim's universal breakdown
guarantee fails for the first kind, see the counterexample.) -/
theorem c6_row_width_validation (tech : Technology) (t : Tile)
    (hres : ∀ row ∈ t.rows, ∀ cs ∈ row.cells, (tech.get_cell_by_alias cs.type).isSome) :
    (t.validate_row_widths tech = .ok () ↔
      ∀ row ∈ t.rows, row_width_sum tech row.cells = t.width) ∧
    (∀ m, t.validate_row_widths tech = .error m →
      (∃ r0 rest, t.rows = r0 :: rest ∧ row_width_sum tech r0.cells ≠ t.width ∧
        m = declared_mismatch_msg t (row_width_sum tech r0.cells)) ∨
      (∃ r0 rest r i, t.rows = r0 :: rest ∧ r ∈ rest ∧
        row_width_sum tech r0.cells = t.width ∧
        row_width_sum tech r.cells ≠ row_width_sum tech r0.cells ∧
        m = row_mismatch_msg tech t r0 r i (row_width_sum tech r0.cells)
          (row_width_sum tech r.cells) ∧
        (String.intercalate " + " (row_breakdown tech r0.cells)).toList <:+: m.toList ∧
        (String.intercalate " + " (row_breakdown tech r.cells)).toList <:+: m.toList)) := by
  cases hrows : t.rows with
  | nil =>
      constructor
      · unfold Tile.validate_row_widths
        rw [hrows]
        simp
      · intro m hm
        unfold Tile.validate_row_widths at hm
        rw [hrows] at hm
        exact absurd hm (by simp)
  | cons r0 rest =>
      have hres0 : ∀ cs ∈ r0.cells, (tech.get_cell_by_alias cs.type).isSome :=
        hres r0 (by rw [hrows]; exact List.mem_cons_self r0 rest)
      have hresr : ∀ row ∈ rest, ∀ cs ∈ row.cells, (tech.get_cell_by_alias cs.type).isSome :=
        fun row hr => hres row (by rw [hrows]; exact List.mem_cons_of_mem _ hr)
      have hcalc := calc_row_width_ok tech r0.cells hres0
      have hval := validate_row_widths_cons tech t r0 rest _ hrows hcalc
      constructor
      · rw [hval]
        by_cases hw : row_width_sum tech r0.cells ≠ t.width
        · rw [if_pos hw]
          constructor
          · intro hcontra; exact absurd hcontra (by simp)
          · intro hall
            exact absurd (hall r0 (List.mem_cons_self r0 rest)) hw
        · rw [if_neg hw]
          push_neg at hw
          rw [check_later_rows_ok_iff tech t r0 (row_width_sum tech r0.cells) rest 1 hresr]
          constructor
          · intro hall x hx
            rcases List.mem_cons.mp hx with rfl | hx'
            · exact hw
            · rw [hall x hx']; exact hw
          · intro hall x hx
            rw [hall x (List.mem_cons_of_mem _ hx)]
            exact hw.symm
      · intro m hm
        rw [hval] at hm
        by_cases hw : row_width_sum tech r0.cells ≠ t.width
        · rw [if_pos hw] at hm
          exact Or.inl ⟨r0, rest, rfl, hw, (Except.error.inj hm).symm⟩
        · rw [if_neg hw] at hm
          push_neg at hw
          obtain ⟨i', r', hmem, hne, heq⟩ :=
            check_later_rows_error tech t r0 (row_width_sum tech r0.cells) rest 1 m hresr hm
          refine Or.inr ⟨r0, rest, r', i', rfl, hmem, hw, hne, heq, ?_, ?_⟩
          · rw [heq]
            exact (breakdowns_in_row_mismatch_msg tech t r0 r' i'
              (row_width_sum tech r0.cells) (row_width_sum tech r'.cells)).1
          · rw [heq]
            exact (breakdowns_in_row_mismatch_msg tech t r0 r' i'
              (row_width_sum tech r0.cells) (row_width_sum tech r'.cells)).2

/-- Counterexample to C6 as stated: the only row of `tileBad` sums to 3
sites against a declared width of 2, so validation rejects it, but the
rejection message carries no per-row breakdown — only the two totals. -/
theorem c6_row_width_validation_counterexample :
    tileBad.validate_row_widths techW = .error (declared_mismatch_msg tileBad 3) ∧
    row_width_sum techW [⟨"NAND", 1⟩, ⟨"INV", 1⟩] = 3 ∧
    tileBad.width = 2 ∧
    ¬ ((String.intercalate " + "
        (row_breakdown techW [⟨"NAND", 1⟩, ⟨"INV", 1⟩])).toList <:+:
      (declared_mismatch_msg tileBad 3).toList) := by
  refine ⟨by decide, by decide, by decide, by decide⟩

/-- Witness for C6: `tileBasic` (all rows resolve and sum to the
declared width) is accepted, and the amended characterization
evaluates on it. -/
theorem c6_row_width_validation_witness :
    (∀ row ∈ tileBasic.rows, ∀ cs ∈ row.cells,
      (techW.get_cell_by_alias cs.type).isSome) ∧
    ((tileBasic.validate_row_widths techW = .ok () ↔
      ∀ row ∈ tileBasic.rows, row_width_sum techW row.cells = tileBasic.width) ∧
    (∀ m, tileBasic.validate_row_widths techW = .error m →
      (∃ r0 rest, tileBasic.rows = r0 :: rest ∧
        row_width_sum techW r0.cells ≠ tileBasic.width ∧
        m = declared_mismatch_msg tileBasic (row_width_sum techW r0.cells)) ∨
      (∃ r0 rest r i, tileBasic.rows = r0 :: rest ∧ r ∈ rest ∧
        row_width_sum techW r0.cells = tileBasic.width ∧
        row_width_sum techW r.cells ≠ row_width_sum techW r0.cells ∧
        m = row_mismatch_msg techW tileBasic r0 r i (row_width_sum techW r0.cells)
          (row_width_sum techW r.cells) ∧
        (String.intercalate " + " (row_breakdown techW r0.cells)).toList <:+: m.toList ∧
        (String.intercalate " + " (row_breakdown techW r.cells)).toList <:+: m.toList))) :=
  ⟨by decide, c6_row_width_validation techW tileBasic (by decide)⟩

/-! ## C8: total leakage power -/

/-- One accumulation step adds exactly the amended spec-side
contribution of the instance, provided aliases are unique across the
catalog. -/
theorem leakage_step_spec (tech : Technology)
    (hinj : ∀ c1 ∈ tech.cells, ∀ c2 ∈ tech.cells, c1.«alias» = c2.«alias» → c1 = c2)
    (acc : ℚ) (inst : CellInstance) :
    leakage_step tech acc inst = acc + spec_leak_contribution_guarded tech inst := by
  unfold leakage_step get_cell_alias spec_leak_contribution_guarded
  cases hf : tech.cells.find? (fun c => c.name == inst.cell_type) with
  | none => simp [hf]
  | some cd0 =>
      simp only [hf, Option.map_some']
      by_cases hal0 : cd0.«alias» = ""
      · rw [if_pos hal0, if_pos hal0]
        simp
      · rw [if_neg hal0, if_neg hal0]
        have hmem0 := List.mem_of_find?_eq_some hf
        have hsome : (tech.get_cell_by_alias cd0.«alias»).isSome := by
          unfold Technology.get_cell_by_alias
          rw [List.find?_isSome]
          exact ⟨cd0, hmem0, by simp⟩
        obtain ⟨cd1, hcd1⟩ := Option.isSome_iff_exists.mp hsome
        have hal : cd1.«alias» = cd0.«alias» := by
          have h1 := List.find?_some hcd1
          simpa using h1
        have heq : cd1 = cd0 :=
          hinj cd1 (List.mem_of_find?_eq_some hcd1) cd0 hmem0 hal
        rw [hcd1, heq]
        dsimp only
        cases hp : cd0.power with
        | none => simp [hp]
        | some p => simp [hp]

/-- C8 (amended): the total leakage power equals the sum over the
combined fabric-plus-edge instance list of the cell definition's
declared leakage times 1e-6, where instances without power data and
instances whose cell definition carries an empty alias string — which
the engine's `if cell_alias:` truthiness guard skips — contribute
exactly zero, and none causes an error. -/
theorem c8_leakage_power (tech : Technology) (fabric edge : List CellInstance)
    (hinj : ∀ c1 ∈ tech.cells, ∀ c2 ∈ tech.cells, c1.«alias» = c2.«alias» → c1 = c2) :
    total_leakage_power tech (fabric ++ edge) =
      ((fabric ++ edge).map (spec_leak_contribution_guarded tech)).sum := by
  unfold total_leakage_power
  generalize fabric ++ edge = l
  suffices h : ∀ (l2 : List CellInstance) (acc : ℚ),
      List.foldl (leakage_step tech) acc l2 =
        acc + (l2.map (spec_leak_contribution_guarded tech)).sum by
    simpa using h l 0
  intro l2
  induction l2 with
  | nil => intro acc; simp
  | cons i rest ih =>
      intro acc
      rw [List.foldl_cons, leakage_step_spec tech hinj acc i, ih]
      simp [add_assoc]

/-- Counterexample to C8 as stated: a placed instance of a cell whose
definition carries power data (5 μW) under an empty alias string.  The
engine's `if cell_alias:` truthiness guard skips it, so the computed
total is zero, while the claim's per-definition sum is `5e-6`; the
aliases of the catalog are trivially unique. -/
theorem c8_leakage_power_counterexample :
    (∀ c1 ∈ techE.cells, ∀ c2 ∈ techE.cells, c1.«alias» = c2.«alias» → c1 = c2) ∧
    total_leakage_power techE ([instE] ++ []) ≠
      (([instE] ++ []).map (spec_leak_contribution techE)).sum := by
  refine ⟨by decide, ?_⟩
  have h1 : total_leakage_power techE ([instE] ++ []) = 0 := rfl
  have h2 : ([instE] ++ []).map (spec_leak_contribution techE) =
      [(5 : ℚ) * (1 / 1000000)] := rfl
  rw [h1, h2]
  norm_num

/-- Witness for C8: two fabric instances (one NAND with power data, one
INV without) and one edge TAP instance, all with non-empty aliases. -/
theorem c8_leakage_power_witness :
    (∀ c1 ∈ techW.cells, ∀ c2 ∈ techW.cells, c1.«alias» = c2.«alias» → c1 = c2) ∧
    total_leakage_power techW ([instN0, instI0] ++ [instT0]) =
      (([instN0, instI0] ++ [instT0]).map (spec_leak_contribution_guarded techW)).sum :=
  ⟨by decide, c8_leakage_power techW _ _ (by decide)⟩

/-! ## C7: manual pin placement -/

/-- The coordinate pair computed for a manual pin, expressed by the
per-edge convention (the source's `else` branch is `west`, and every
name other than the four edges also lands there). -/
theorem manual_pin_xy_eq (edge_name : String) (pos : ℚ) (ps : PinSize)
    (dims : FabricDimensions) :
    manual_pin_xy edge_name pos ps dims =
      (if edge_name = "north" ∨ edge_name = "south" then pos - ps.width / 2
       else if edge_name = "east" then dims.die_width - ps.width else 0,
       if edge_name = "north" then dims.die_height - ps.height
       else if edge_name = "south" then 0 else pos - ps.height / 2) := by
  unfold manual_pin_xy
  by_cases h1 : edge_name = "north"
  · simp [h1]
  · by_cases h2 : edge_name = "south"
    · simp [h1, h2]
    · by_cases h3 : edge_name = "east" <;> simp [h1, h2, h3]

/-- The margin-band validator accepts a manual pin's computed
coordinates iff the pin rectangle sits inside the band on the relevant
axis. -/
theorem validate_pin_position_ok_iff (edge_name : String) (pin : IOPin) (pos : ℚ)
    (hp : pin.position = some pos) (ps : PinSize) (dims : FabricDimensions) :
    validate_pin_position pin.name edge_name (manual_pin_xy edge_name pos ps dims).1
      (manual_pin_xy edge_name pos ps dims).2 ps dims = .ok () ↔
      pin_within_band edge_name pin ps dims := by
  unfold validate_pin_position pin_within_band
  rw [manual_pin_xy_eq]
  rw [hp]
  by_cases hns : edge_name = "north" ∨ edge_name = "south"
  · rw [if_pos hns, if_pos hns]
    dsimp only [Option.getD_some]
    rw [if_pos hns]
    by_cases hc : pos - ps.width / 2 < dims.margin_horizontal ∨
        dims.die_width - dims.margin_horizontal < pos - ps.width / 2 + ps.width
    · rw [if_pos hc]
      constructor
      · intro habs; exact absurd habs (by simp)
      · intro hband
        rcases hc with hc | hc
        · exact absurd hband.1 (not_le.mpr hc)
        · exact absurd hband.2 (not_le.mpr hc)
    · rw [if_neg hc]
      push_neg at hc
      simp only [true_iff]
      exact ⟨hc.1, hc.2⟩
  · rw [if_neg hns, if_neg hns]
    dsimp only [Option.getD_some]
    rw [if_neg hns]
    have hy : (if edge_name = "north" then dims.die_height - ps.height
        else if edge_name = "south" then 0 else pos - ps.height / 2) = pos - ps.height / 2 := by
      push_neg at hns
      rw [if_neg hns.1, if_neg hns.2]
    rw [hy]
    by_cases hc : pos - ps.height / 2 < dims.margin_vertical ∨
        dims.die_height - dims.margin_vertical < pos - ps.height / 2 + ps.height
    · rw [if_pos hc]
      constructor
      · intro habs; exact absurd habs (by simp)
      · intro hband
        rcases hc with hc | hc
        · exact absurd hband.1 (not_le.mpr hc)
        · exact absurd hband.2 (not_le.mpr hc)
    · rw [if_neg hc]
      push_neg at hc
      simp only [true_iff]
      exact ⟨hc.1, hc.2⟩

/-- A within-band manual pin is placed at exactly the spec-side
coordinates. -/
theorem place_one_manual_pin_ok (edge_name : String) (ps : PinSize)
    (dims : FabricDimensions) (pin : IOPin) (pos : ℚ) (hp : pin.position = some pos)
    (hw : pin_within_band edge_name pin ps dims) :
    place_one_manual_pin edge_name ps dims pin =
      .ok (manual_placed_pin edge_name pin ps dims) := by
  unfold place_one_manual_pin
  rw [hp]
  have hv := (validate_pin_position_ok_iff edge_name pin pos hp ps dims).mpr hw
  show (validate_pin_position pin.name edge_name (manual_pin_xy edge_name pos ps dims).1
    (manual_pin_xy edge_name pos ps dims).2 ps dims >>= fun _ => .ok _) = _
  rw [hv]
  show Except.ok _ = _
  unfold manual_placed_pin
  rw [hp]
  dsimp only [Option.getD_some]
  rw [manual_pin_xy_eq]

/-- A manual pin outside the band makes its placement fail. -/
theorem place_one_manual_pin_error (edge_name : String) (ps : PinSize)
    (dims : FabricDimensions) (pin : IOPin) (pos : ℚ) (hp : pin.position = some pos)
    (hw : ¬ pin_within_band edge_name pin ps dims) :
    ∃ m, place_one_manual_pin edge_name ps dims pin = .error m := by
  unfold place_one_manual_pin
  rw [hp]
  cases hv : validate_pin_position pin.name edge_name (manual_pin_xy edge_name pos ps dims).1
      (manual_pin_xy edge_name pos ps dims).2 ps dims with
  | ok u =>
      cases u
      exact absurd ((validate_pin_position_ok_iff edge_name pin pos hp ps dims).mp hv) hw
  | error m =>
      refine ⟨m, ?_⟩
      show (validate_pin_position pin.name edge_name (manual_pin_xy edge_name pos ps dims).1
        (manual_pin_xy edge_name pos ps dims).2 ps dims >>= fun _ => .ok _) = _
      rw [hv]
      rfl

theorem place_manual_pins_ok_of (edge_name : String) (ps : PinSize) (dims : FabricDimensions) :
    ∀ (pins : List IOPin), (∀ p ∈ pins, p.position.isSome) →
      (∀ p ∈ pins, pin_within_band edge_name p ps dims) →
      place_manual_pins edge_name pins ps dims =
        .ok (pins.map (fun p => manual_placed_pin edge_name p ps dims)) := by
  intro pins
  induction pins with
  | nil => intro _ _; rfl
  | cons p rest ih =>
      intro hsome hall
      obtain ⟨pos, hp⟩ := Option.isSome_iff_exists.mp (hsome p (List.mem_cons_self p rest))
      unfold place_manual_pins
      rw [List.mapM_cons,
        place_one_manual_pin_ok edge_name ps dims p pos hp (hall p (List.mem_cons_self p rest))]
      have ihr := ih (fun q hq => hsome q (List.mem_cons_of_mem _ hq))
        (fun q hq => hall q (List.mem_cons_of_mem _ hq))
      unfold place_manual_pins at ihr
      rw [ihr]
      rfl

theorem place_manual_pins_error_of (edge_name : String) (ps : PinSize) (dims : FabricDimensions) :
    ∀ (pins : List IOPin), (∀ p ∈ pins, p.position.isSome) →
      (∃ p ∈ pins, ¬ pin_within_band edge_name p ps dims) →
      ∃ m, place_manual_pins edge_name pins ps dims = .error m := by
  intro pins
  induction pins with
  | nil => rintro _ ⟨p, hp, _⟩; cases hp
  | cons q rest ih =>
      rintro hsome ⟨p, hpmem, hpw⟩
      obtain ⟨posq, hq⟩ := Option.isSome_iff_exists.mp (hsome q (List.mem_cons_self q rest))
      by_cases hqw : pin_within_band edge_name q ps dims
      · rcases List.mem_cons.mp hpmem with rfl | hpmem'
        · exact absurd hqw hpw
        · obtain ⟨m, hm⟩ := ih (fun x hx => hsome x (List.mem_cons_of_mem _ hx)) ⟨p, hpmem', hpw⟩
          refine ⟨m, ?_⟩
          unfold place_manual_pins
          rw [List.mapM_cons, place_one_manual_pin_ok edge_name ps dims q posq hq hqw]
          unfold place_manual_pins at hm
          rw [hm]
          rfl
      · obtain ⟨m, hm⟩ := place_one_manual_pin_error edge_name ps dims q posq hq hqw
        refine ⟨m, ?_⟩
        unfold place_manual_pins
        rw [List.mapM_cons, hm]
        rfl

/-- C7: for a manual-mode edge whose pins all carry positions (as the
`IOEdge` constructor guarantees), placement succeeds iff every computed
pin rectangle lies within the margin band on the edge's relevant axis,
and on success each pin sits exactly at its declared position centered
by half the pin size, with the perpendicular coordinate at the die
boundary — never clipped or auto-corrected. -/
theorem c7_manual_pin_placement (edge_name : String) (pins : List IOPin) (ps : PinSize)
    (dims : FabricDimensions) (hsome : ∀ p ∈ pins, p.position.isSome) :
    ((∃ l, place_manual_pins edge_name pins ps dims = .ok l) ↔
      ∀ p ∈ pins, pin_within_band edge_name p ps dims) ∧
    (∀ l, place_manual_pins edge_name pins ps dims = .ok l →
      l = pins.map (fun p => manual_placed_pin edge_name p ps dims)) := by
  constructor
  · constructor
    · rintro ⟨l, hl⟩
      by_contra hnot
      push_neg at hnot
      obtain ⟨m, hm⟩ := place_manual_pins_error_of edge_name ps dims pins hsome hnot
      rw [hl] at hm
      exact absurd hm (by simp)
    · intro hall
      exact ⟨_, place_manual_pins_ok_of edge_name ps dims pins hsome hall⟩
  · intro l hl
    by_cases hall : ∀ p ∈ pins, pin_within_band edge_name p ps dims
    · have := place_manual_pins_ok_of edge_name ps dims pins hsome hall
      rw [hl] at this
      exact Except.ok.inj this
    · push_neg at hall
      obtain ⟨m, hm⟩ := place_manual_pins_error_of edge_name ps dims pins hsome hall
      rw [hl] at hm
      exact absurd hm (by simp)

/-- Witness for C7: one manual pin at position 5 on the south edge of
the 20×10 example die. -/
theorem c7_manual_pin_placement_witness :
    (∀ p ∈ [pinP5], p.position.isSome) ∧
    (((∃ l, place_manual_pins "south" [pinP5] ⟨1, 1⟩ dimsW = .ok l) ↔
      ∀ p ∈ [pinP5], pin_within_band "south" p ⟨1, 1⟩ dimsW) ∧
    (∀ l, place_manual_pins "south" [pinP5] ⟨1, 1⟩ dimsW = .ok l →
      l = [pinP5].map (fun p => manual_placed_pin "south" p ⟨1, 1⟩ dimsW))) :=
  ⟨by decide, c7_manual_pin_placement "south" [pinP5] ⟨1, 1⟩ dimsW (by decide)⟩

/-! ## C4: auto pin placement -/

theorem auto_pins_x_spec (e : String) (ps : PinSize) (dims : FabricDimensions) (s : ℚ) :
    ∀ (l : List IOPin) (i0 : ℕ),
      (auto_pins_x e ps dims s i0 l).length = l.length ∧
      ∀ k, k < l.length →
        ((auto_pins_x e ps dims s i0 l).getD k dummy_pin).x =
          dims.margin_horizontal + (((i0 + k : ℕ) : ℚ) + 1) * s - ps.width / 2 ∧
        ((auto_pins_x e ps dims s i0 l).getD k dummy_pin).y =
          (if e = "south" then (0 : ℚ) else dims.die_height - ps.height) := by
  intro l
  induction l with
  | nil => intro i0; exact ⟨rfl, fun k hk => absurd hk (by simp)⟩
  | cons p rest ih =>
      intro i0
      refine ⟨by simp [auto_pins_x, (ih (i0 + 1)).1], ?_⟩
      intro k hk
      cases k with
      | zero =>
          constructor
          · show dims.margin_horizontal + ((i0 : ℚ) + 1) * s - ps.width / 2 = _
            norm_num
          · rfl
      | succ j =>
          have hj : j < rest.length := by simpa using hk
          obtain ⟨hx, hy⟩ := (ih (i0 + 1)).2 j hj
          constructor
          · show ((auto_pins_x e ps dims s (i0 + 1) rest).getD j dummy_pin).x = _
            rw [hx]
            congr 2
            push_cast
            ring
          · exact hy

theorem auto_pins_y_spec (e : String) (ps : PinSize) (dims : FabricDimensions) (s : ℚ) :
    ∀ (l : List IOPin) (i0 : ℕ),
      (auto_pins_y e ps dims s i0 l).length = l.length ∧
      ∀ k, k < l.length →
        ((auto_pins_y e ps dims s i0 l).getD k dummy_pin).y =
          dims.margin_vertical + (((i0 + k : ℕ) : ℚ) + 1) * s - ps.height / 2 ∧
        ((auto_pins_y e ps dims s i0 l).getD k dummy_pin).x =
          (if e = "west" then (0 : ℚ) else dims.die_width - ps.width) := by
  intro l
  induction l with
  | nil => intro i0; exact ⟨rfl, fun k hk => absurd hk (by simp)⟩
  | cons p rest ih =>
      intro i0
      refine ⟨by simp [auto_pins_y, (ih (i0 + 1)).1], ?_⟩
      intro k hk
      cases k with
      | zero =>
          constructor
          · show dims.margin_vertical + ((i0 : ℚ) + 1) * s - ps.height / 2 = _
            norm_num
          · rfl
      | succ j =>
          have hj : j < rest.length := by simpa using hk
          obtain ⟨hy, hx⟩ := (ih (i0 + 1)).2 j hj
          constructor
          · show ((auto_pins_y e ps dims s (i0 + 1) rest).getD j dummy_pin).y = _
            rw [hy]
            congr 2
            push_cast
            ring
          · exact hx

/-- Axis coordinates of the north/south auto placement. -/
theorem place_auto_pins_ns (e : String) (he : e = "north" ∨ e = "south")
    (pins : List IOPin) (ps : PinSize) (dims : FabricDimensions) :
    (place_auto_pins e pins ps dims).length = pins.length ∧
    ∀ i, i < pins.length →
      ((place_auto_pins e pins ps dims).getD i dummy_pin).x =
        dims.margin_horizontal +
          ((i : ℚ) + 1) * ((dims.die_width - 2 * dims.margin_horizontal) / (pins.length + 1)) -
          ps.width / 2 ∧
      ((place_auto_pins e pins ps dims).getD i dummy_pin).y =
        (if e = "south" then (0 : ℚ) else dims.die_height - ps.height) := by
  by_cases hnil : pins = []
  · subst hnil
    exact ⟨rfl, fun i hi => absurd hi (by simp)⟩
  · unfold place_auto_pins
    rw [if_neg hnil, if_pos he]
    obtain ⟨hlen, hco⟩ := auto_pins_x_spec e ps dims
      ((dims.die_width - 2 * dims.margin_horizontal) / (pins.length + 1)) pins 0
    refine ⟨hlen, fun i hi => ?_⟩
    obtain ⟨hx, hy⟩ := hco i hi
    refine ⟨?_, hy⟩
    rw [hx]
    norm_num

/-- Axis coordinates of the east/west auto placement. -/
theorem place_auto_pins_ew (e : String) (he : ¬ (e = "north" ∨ e = "south"))
    (pins : List IOPin) (ps : PinSize) (dims : FabricDimensions) :
    (place_auto_pins e pins ps dims).length = pins.length ∧
    ∀ i, i < pins.length →
      ((place_auto_pins e pins ps dims).getD i dummy_pin).y =
        dims.margin_vertical +
          ((i : ℚ) + 1) * ((dims.die_height - 2 * dims.margin_vertical) / (pins.length + 1)) -
          ps.height / 2 ∧
      ((place_auto_pins e pins ps dims).getD i dummy_pin).x =
        (if e = "west" then (0 : ℚ) else dims.die_width - ps.width) := by
  by_cases hnil : pins = []
  · subst hnil
    exact ⟨rfl, fun i hi => absurd hi (by simp)⟩
  · unfold place_auto_pins
    rw [if_neg hnil, if_neg he]
    obtain ⟨hlen, hco⟩ := auto_pins_y_spec e ps dims
      ((dims.die_height - 2 * dims.margin_vertical) / (pins.length + 1)) pins 0
    refine ⟨hlen, fun i hi => ?_⟩
    obtain ⟨hy, hx⟩ := hco i hi
    refine ⟨?_, hx⟩
    rw [hy]
    norm_num

/-- The evenly-spaced axis positions are strictly increasing when the
available span is positive. -/
theorem auto_axis_strict_mono (margin span half : ℚ) (N : ℕ) (hspan : 0 < span)
    (i j : ℕ) (hij : i < j) :
    margin + ((i : ℚ) + 1) * (span / (N + 1)) - half <
      margin + ((j : ℚ) + 1) * (span / (N + 1)) - half := by
  have hs : 0 < span / ((N : ℚ) + 1) := by positivity
  have hcast : (i : ℚ) + 1 < (j : ℚ) + 1 := by
    have : (i : ℚ) < j := by exact_mod_cast hij
    linarith
  nlinarith [mul_lt_mul_of_pos_right hcast hs]

/-- Pin centers are symmetric about the midpoint of the die span. -/
theorem auto_axis_symmetric (margin die half : ℚ) (N : ℕ) (i : ℕ) (hi : i < N) :
    (margin + ((i : ℚ) + 1) * ((die - 2 * margin) / (N + 1)) - half + half) +
      (margin + (((N - 1 - i : ℕ) : ℚ) + 1) * ((die - 2 * margin) / (N + 1)) - half + half) =
      die := by
  have hne : ((N : ℚ) + 1) ≠ 0 := by positivity
  rw [Nat.cast_sub (by omega), Nat.cast_sub (by omega)]
  push_cast
  field_simp
  ring

/-- The first and last pin centers are inset by exactly one spacing
unit from the margin edges. -/
theorem auto_axis_insets (margin die half : ℚ) (N : ℕ) (hN : 0 < N) :
    (margin + ((0 : ℚ) + 1) * ((die - 2 * margin) / (N + 1)) - half + half =
      margin + (die - 2 * margin) / (N + 1)) ∧
    (margin + (((N - 1 : ℕ) : ℚ) + 1) * ((die - 2 * margin) / (N + 1)) - half + half =
      die - margin - (die - 2 * margin) / (N + 1)) := by
  have hne : ((N : ℚ) + 1) ≠ 0 := by positivity
  constructor
  · ring
  · rw [Nat.cast_sub (by omega)]
    push_cast
    field_simp
    ring

/-- C4: auto spacing places the i-th of N pins (1-indexed) at
`margin + span·i/(N+1)` minus half the pin size along the edge's axis,
with the perpendicular coordinate at the die boundary; consequently the
axis positions are strictly increasing (for a positive span), symmetric
about the edge midpoint, and the first and last pins are inset by one
spacing unit from the margin edges. -/
theorem c4_auto_pin_placement (pins : List IOPin) (ps : PinSize) (dims : FabricDimensions) :
    (∀ e, e = "south" ∨ e = "north" →
      (place_auto_pins e pins ps dims).length = pins.length ∧
      (∀ i, i < pins.length →
        ((place_auto_pins e pins ps dims).getD i dummy_pin).x =
          dims.margin_horizontal +
            (dims.die_width - 2 * dims.margin_horizontal) * ((i : ℚ) + 1) / (pins.length + 1) -
            ps.width / 2 ∧
        ((place_auto_pins e pins ps dims).getD i dummy_pin).y =
          (if e = "south" then (0 : ℚ) else dims.die_height - ps.height)) ∧
      (0 < dims.die_width - 2 * dims.margin_horizontal →
        ∀ i j, i < j → j < pins.length →
          ((place_auto_pins e pins ps dims).getD i dummy_pin).x <
            ((place_auto_pins e pins ps dims).getD j dummy_pin).x) ∧
      (∀ i, i < pins.length →
        (((place_auto_pins e pins ps dims).getD i dummy_pin).x + ps.width / 2) +
          (((place_auto_pins e pins ps dims).getD (pins.length - 1 - i) dummy_pin).x +
            ps.width / 2) = dims.die_width) ∧
      (0 < pins.length →
        ((place_auto_pins e pins ps dims).getD 0 dummy_pin).x + ps.width / 2 =
          dims.margin_horizontal +
            (dims.die_width - 2 * dims.margin_horizontal) / (pins.length + 1) ∧
        ((place_auto_pins e pins ps dims).getD (pins.length - 1) dummy_pin).x + ps.width / 2 =
          dims.die_width - dims.margin_horizontal -
            (dims.die_width - 2 * dims.margin_horizontal) / (pins.length + 1))) ∧
    (∀ e, e = "west" ∨ e = "east" →
      (place_auto_pins e pins ps dims).length = pins.length ∧
      (∀ i, i < pins.length →
        ((place_auto_pins e pins ps dims).getD i dummy_pin).y =
          dims.margin_vertical +
            (dims.die_height - 2 * dims.margin_vertical) * ((i : ℚ) + 1) / (pins.length + 1) -
            ps.height / 2 ∧
        ((place_auto_pins e pins ps dims).getD i dummy_pin).x =
          (if e = "west" then (0 : ℚ) else dims.die_width - ps.width)) ∧
      (0 < dims.die_height - 2 * dims.margin_vertical →
        ∀ i j, i < j → j < pins.length →
          ((place_auto_pins e pins ps dims).getD i dummy_pin).y <
            ((place_auto_pins e pins ps dims).getD j dummy_pin).y) ∧
      (∀ i, i < pins.length →
        (((place_auto_pins e pins ps dims).getD i dummy_pin).y + ps.height / 2) +
          (((place_auto_pins e pins ps dims).getD (pins.length - 1 - i) dummy_pin).y +
            ps.height / 2) = dims.die_height) ∧
      (0 < pins.length →
        ((place_auto_pins e pins ps dims).getD 0 dummy_pin).y + ps.height / 2 =
          dims.margin_vertical +
            (dims.die_height - 2 * dims.margin_vertical) / (pins.length + 1) ∧
        ((place_auto_pins e pins ps dims).getD (pins.length - 1) dummy_pin).y + ps.height / 2 =
          dims.die_height - dims.margin_vertical -
            (dims.die_height - 2 * dims.margin_vertical) / (pins.length + 1))) := by
  constructor
  · intro e he
    have hns : e = "north" ∨ e = "south" := he.symm.imp id id |>.symm.elim (fun h => Or.inr h) (fun h => Or.inl h)
    obtain ⟨hlen, hco⟩ := place_auto_pins_ns e (by tauto) pins ps dims
    refine ⟨hlen, ?_, ?_, ?_, ?_⟩
    · intro i hi
      obtain ⟨hx, hy⟩ := hco i hi
      exact ⟨by rw [hx]; ring, hy⟩
    · intro hspan i j hij hj
      rw [(hco i (by omega)).1, (hco j hj).1]
      exact auto_axis_strict_mono dims.margin_horizontal _ _ pins.length hspan i j hij
    · intro i hi
      rw [(hco i hi).1, (hco (pins.length - 1 - i) (by omega)).1]
      exact auto_axis_symmetric dims.margin_horizontal dims.die_width (ps.width / 2)
        pins.length i hi
    · intro hN
      constructor
      · rw [(hco 0 hN).1]
        have h0 := (auto_axis_insets dims.margin_horizontal dims.die_width (ps.width / 2)
          pins.length hN).1
        simp only [Nat.cast_zero] at h0 ⊢
        exact h0
      · rw [(hco (pins.length - 1) (by omega)).1]
        exact (auto_axis_insets dims.margin_horizontal dims.die_width (ps.width / 2)
          pins.length hN).2
  · intro e he
    have hne : ¬ (e = "north" ∨ e = "south") := by
      rcases he with rfl | rfl <;> simp
    obtain ⟨hlen, hco⟩ := place_auto_pins_ew e hne pins ps dims
    refine ⟨hlen, ?_, ?_, ?_, ?_⟩
    · intro i hi
      obtain ⟨hy, hx⟩ := hco i hi
      exact ⟨by rw [hy]; ring, hx⟩
    · intro hspan i j hij hj
      rw [(hco i (by omega)).1, (hco j hj).1]
      exact auto_axis_strict_mono dims.margin_vertical _ _ pins.length hspan i j hij
    · intro i hi
      rw [(hco i hi).1, (hco (pins.length - 1 - i) (by omega)).1]
      exact auto_axis_symmetric dims.margin_vertical dims.die_height (ps.height / 2)
        pins.length i hi
    · intro hN
      constructor
      · rw [(hco 0 hN).1]
        have h0 := (auto_axis_insets dims.margin_vertical dims.die_height (ps.height / 2)
          pins.length hN).1
        simp only [Nat.cast_zero] at h0 ⊢
        exact h0
      · rw [(hco (pins.length - 1) (by omega)).1]
        exact (auto_axis_insets dims.margin_vertical dims.die_height (ps.height / 2)
          pins.length hN).2

/-! ## C2: fabric cell placement -/

theorem resolve_row_cons_none (tech : Technology) (cs : CellSpec) (rest : List CellSpec)
    (h : tech.get_cell_by_alias cs.type = none) :
    resolve_row tech (cs :: rest) = none := by
  unfold resolve_row
  rw [List.mapM_cons]
  simp [h]

theorem resolve_row_cons_some (tech : Technology) (cs : CellSpec) (rest : List CellSpec)
    (cd : Cell) (h : tech.get_cell_by_alias cs.type = some cd) :
    resolve_row tech (cs :: rest) =
      (resolve_row tech rest).map (fun defs => List.replicate cs.count (cs.type, cd) ++ defs) := by
  unfold resolve_row
  rw [List.mapM_cons]
  cases hrest : rest.mapM (fun cs =>
      (tech.get_cell_by_alias cs.type).map (fun cd => List.replicate cs.count (cs.type, cd))) with
  | none => simp [h, hrest]
  | some rl => simp [h, hrest]

theorem run_sum_width_cons (sw : ℚ) (p : String × Cell) (l : List (String × Cell)) :
    run_sum_width sw (p :: l) = p.2.width * sw + run_sum_width sw l := by
  simp [run_sum_width]

theorem run_sum_width_replicate (sw : ℚ) (al : String) (cd : Cell) (n : ℕ) :
    run_sum_width sw (List.replicate n (al, cd)) = n * (cd.width * sw) := by
  simp [run_sum_width, List.map_replicate, List.sum_replicate, nsmul_eq_mul]

/-- The inner count loop is the spec-side placement of a replicated
cell run. -/
theorem emit_cell_run_eq_spec (al : String) (cd : Cell) (sw sh : ℚ)
    (tile_row tile_col row_id : ℕ) (row_y : ℚ) :
    ∀ (n : ℕ) (x0 : ℚ) (p0 : ℕ),
      emit_cell_run al cd sw sh tile_row tile_col row_id row_y n x0 p0 =
        spec_row_from sw sh tile_row tile_col row_id row_y (List.replicate n (al, cd)) x0 p0 := by
  intro n
  induction n with
  | zero => intro x0 p0; rfl
  | succ m ih =>
      intro x0 p0
      rw [List.replicate_succ]
      show _ :: emit_cell_run al cd sw sh tile_row tile_col row_id row_y m (x0 + cd.width * sw) (p0 + 1) =
        _ :: spec_row_from sw sh tile_row tile_col row_id row_y (List.replicate m (al, cd))
          (x0 + cd.width * sw) (p0 + 1)
      rw [ih]

theorem spec_row_from_append (sw sh : ℚ) (tile_row tile_col row_id : ℕ) (row_y : ℚ) :
    ∀ (l1 l2 : List (String × Cell)) (x0 : ℚ) (p0 : ℕ),
      spec_row_from sw sh tile_row tile_col row_id row_y (l1 ++ l2) x0 p0 =
        spec_row_from sw sh tile_row tile_col row_id row_y l1 x0 p0 ++
          spec_row_from sw sh tile_row tile_col row_id row_y l2
            (x0 + run_sum_width sw l1) (p0 + l1.length) := by
  intro l1
  induction l1 with
  | nil =>
      intro l2 x0 p0
      show spec_row_from sw sh tile_row tile_col row_id row_y l2 x0 p0 = _
      simp [spec_row_from, run_sum_width]
  | cons p rest ih =>
      intro l2 x0 p0
      obtain ⟨al, cd⟩ := p
      rw [List.cons_append]
      show _ :: spec_row_from sw sh tile_row tile_col row_id row_y (rest ++ l2)
          (x0 + cd.width * sw) (p0 + 1) = _
      rw [ih]
      have hx : x0 + cd.width * sw + run_sum_width sw rest =
          x0 + run_sum_width sw ((al, cd) :: rest) := by
        rw [run_sum_width_cons]; ring
      have hp : p0 + 1 + rest.length = p0 + ((al, cd) :: rest).length := by
        simp; omega
      rw [hx, hp]
      rfl

/-- The engine's incremental row walk refines the spec-side row
placement: both fail on exactly the same unresolvable cell types, and
agree on the emitted list otherwise. -/
theorem gen_row_cells_toOption (tech : Technology) (sw sh : ℚ)
    (tile_row tile_col row_id : ℕ) (row_y : ℚ) :
    ∀ (cells : List CellSpec) (x0 : ℚ) (p0 : ℕ),
      (gen_row_cells tech sw sh tile_row tile_col row_id row_y cells x0 p0).toOption =
        (resolve_row tech cells).map
          (fun defs => spec_row_from sw sh tile_row tile_col row_id row_y defs x0 p0) := by
  intro cells
  induction cells with
  | nil => intro x0 p0; rfl
  | cons cs rest ih =>
      intro x0 p0
      cases hlk : tech.get_cell_by_alias cs.type with
      | none =>
          rw [resolve_row_cons_none tech cs rest hlk]
          unfold gen_row_cells
          rw [hlk]
          rfl
      | some cd =>
          rw [resolve_row_cons_some tech cs rest cd hlk]
          unfold gen_row_cells
          rw [hlk]
          dsimp only
          cases hrest : gen_row_cells tech sw sh tile_row tile_col row_id row_y rest
              (x0 + cs.count * (cd.width * sw)) (p0 + cs.count) with
          | error e =>
              have hihr := ih (x0 + cs.count * (cd.width * sw)) (p0 + cs.count)
              rw [hrest] at hihr
              cases hres : resolve_row tech rest with
              | some defs =>
                  rw [hres] at hihr
                  exact absurd hihr (by simp [Except.toOption])
              | none => rfl

          | ok tail =>
              have hihr := ih (x0 + cs.count * (cd.width * sw)) (p0 + cs.count)
              rw [hrest] at hihr
              cases hres : resolve_row tech rest with
              | none =>
                  rw [hres] at hihr
                  exact absurd hihr (by simp [Except.toOption])
              | some defs =>
                  rw [hres] at hihr
                  have htail : tail = spec_row_from sw sh tile_row tile_col row_id row_y defs
                      (x0 + cs.count * (cd.width * sw)) (p0 + cs.count) := by
                    simpa [Except.toOption] using hihr
                  show some (emit_cell_run cs.type cd sw sh tile_row tile_col row_id row_y
                      cs.count x0 p0 ++ tail) =
                    some (spec_row_from sw sh tile_row tile_col row_id row_y
                      (List.replicate cs.count (cs.type, cd) ++ defs) x0 p0)
                  rw [spec_row_from_append, run_sum_width_replicate, List.length_replicate,
                    emit_cell_run_eq_spec, htail]

/-- The recursive spec-side row placement in closed form: the `k`-th
occurrence sits at the running sum of the preceding widths. -/
theorem spec_row_from_closed (sw sh : ℚ) (tile_row tile_col row_id : ℕ) (row_y : ℚ) :
    ∀ (defs : List (String × Cell)) (x0 : ℚ) (p0 : ℕ),
      spec_row_from sw sh tile_row tile_col row_id row_y defs x0 p0 =
        (List.range defs.length).map (fun k =>
          let p := defs.getD k ("", default)
          { name := inst_name p.1 tile_row tile_col row_id (p0 + k)
            cell_type := p.2.name
            x := x0 + run_sum_width sw (defs.take k)
            y := row_y
            width := p.2.width * sw
            height := p.2.height * sh
            tile_pos := some (tile_row, tile_col)
            cell_pos := some (row_id, p0 + k) }) := by
  intro defs
  induction defs with
  | nil => intro x0 p0; rfl
  | cons p rest ih =>
      intro x0 p0
      obtain ⟨al, cd⟩ := p
      rw [show ((al, cd) :: rest).length = rest.length + 1 from rfl,
        List.range_succ_eq_map, List.map_cons, List.map_map]
      simp only [spec_row_from]
      refine congrArg₂ List.cons ?_ ?_
      · simp [run_sum_width]
      · rw [ih (x0 + cd.width * sw) (p0 + 1)]
        apply List.map_congr_left
        intro k hk
        simp only [Function.comp_apply, List.getD_cons_succ, List.take_succ_cons,
          run_sum_width_cons]
        have hp : p0 + (k + 1) = p0 + 1 + k := by omega
        have hx : x0 + (cd.width * sw + run_sum_width sw (List.take k rest)) =
            x0 + cd.width * sw + run_sum_width sw (List.take k rest) := by ring
        rw [hp, hx]

/-- At the row origin the recursive spec-side placement is exactly
`spec_row_instances`. -/
theorem spec_row_from_zero (sw sh : ℚ) (tile_row tile_col row_id : ℕ) (tile_x row_y : ℚ)
    (defs : List (String × Cell)) :
    spec_row_from sw sh tile_row tile_col row_id row_y defs tile_x 0 =
      spec_row_instances sw sh tile_row tile_col row_id tile_x row_y defs := by
  rw [spec_row_from_closed]
  unfold spec_row_instances
  apply List.map_congr_left
  intro k hk
  rw [Nat.zero_add]

/-- Mapping `Except.toOption` commutes with `mapM` when it commutes with the
per-element functions. -/
theorem mapM_toOption {α β : Type _} (f : α → Except String β) (g : α → Option β)
    (h : ∀ a, (f a).toOption = g a) :
    ∀ (l : List α), (l.mapM f).toOption = l.mapM g := by
  intro l
  induction l with
  | nil => rfl
  | cons a rest ih =>
      rw [List.mapM_cons, List.mapM_cons]
      cases hfa : f a with
      | error e =>
          have hg : g a = none := by rw [← h a, hfa]; rfl
          rw [hg]
          rfl
      | ok b =>
          have hg : g a = some b := by rw [← h a, hfa]; rfl
          rw [hg]
          cases hrest : rest.mapM f with
          | error e =>
              have hrg : rest.mapM g = none := by rw [← ih, hrest]; rfl
              rw [hrg]
              rfl
          | ok bs =>
              have hrg : rest.mapM g = some bs := by rw [← ih, hrest]; rfl
              rw [hrg]
              rfl

/-- The engine's tile placement refines the spec-side tile placement. -/
theorem generate_tile_cells_toOption (tech : Technology) (tile : Tile)
    (tile_row tile_col : ℕ) (x_offset y_offset : ℚ) :
    (generate_tile_cells tech tile tile_row tile_col x_offset y_offset).toOption =
      spec_tile_instances tech tile tile_row tile_col x_offset y_offset := by
  unfold generate_tile_cells spec_tile_instances
  dsimp only
  have hrow : ∀ row : TileRow,
      (gen_row_cells tech tech.site.width tech.site.height tile_row tile_col row.row_id
        (y_offset + tile_row * tile.height * tech.site.height + row.row_id * tech.site.height)
        row.cells (x_offset + tile_col * tile.width * tech.site.width) 0).toOption =
      (resolve_row tech row.cells).map (fun defs =>
        spec_row_instances tech.site.width tech.site.height tile_row tile_col row.row_id
          (x_offset + tile_col * tile.width * tech.site.width)
          (y_offset + tile_row * tile.height * tech.site.height + row.row_id * tech.site.height)
          defs) := by
    intro row
    rw [gen_row_cells_toOption]
    cases hres : resolve_row tech row.cells with
    | none => rfl
    | some defs =>
        simp only [Option.map_some']
        rw [spec_row_from_zero]
  have hmap := mapM_toOption _ _ hrow tile.rows
  cases hm : tile.rows.mapM (fun row =>
      gen_row_cells tech tech.site.width tech.site.height tile_row tile_col row.row_id
        (y_offset + tile_row * tile.height * tech.site.height + row.row_id * tech.site.height)
        row.cells (x_offset + tile_col * tile.width * tech.site.width) 0) with
  | error e =>
      rw [← hmap, hm]
      rfl
  | ok rows =>
      rw [← hmap, hm]
      rfl

/-- The engine's base-offset computation refines the spec-side one. -/
theorem fabric_base_offset_toOption (tech : Technology) (ec : Option EdgeCells)
    (margin s : ℚ) (pick : EdgeCells → Option EdgeCellConfig) (f : Cell → ℕ) :
    (fabric_base_offset tech ec margin s pick f).toOption =
      spec_base_offset tech ec margin s pick f := by
  unfold fabric_base_offset spec_base_offset
  cases ec with
  | none => rfl
  | some e =>
      dsimp only
      cases pick e with
      | none => rfl
      | some c =>
          dsimp only
          by_cases hc : c.enable = true
          · rw [if_pos hc, if_pos hc]
            cases tech.get_cell_by_alias c.cell <;> rfl
          · rw [if_neg hc, if_neg hc]
            rfl

/-- C2: the placement engine emits exactly one `CellInstance` per cell
occurrence of every tile of the resolved grid, in declaration order
with no gaps and no reordering, at `x` = base offset + `tile_col ×
tile.width × site_width` + the running sum of the preceding cells'
physical widths, and `y` = base offset + `tile_row × tile.height ×
site_height` + `row_id × site_height`; it fails exactly when the
spec-side resolution fails. -/
theorem c2_fabric_cell_placement (tech : Technology) (tiles : TileDefinitions)
    (cfg : FabricConfiguration) (dims : FabricDimensions) (tile_array : List (List String)) :
    (generate_fabric_cells tech tiles cfg dims tile_array).toOption =
      spec_fabric_instances tech tiles cfg dims tile_array := by
  unfold generate_fabric_cells spec_fabric_instances
  cases hx : fabric_base_offset tech cfg.edge_cells dims.margin_horizontal tech.site.width
      (fun e => e.left) (fun c => c.width) with
  | error e =>
      have hbx : spec_base_offset tech cfg.edge_cells dims.margin_horizontal tech.site.width
          (fun e => e.left) (fun c => c.width) = none := by
        rw [← fabric_base_offset_toOption, hx]; rfl
      rw [hbx]
      rfl
  | ok bx =>
      have hbx : spec_base_offset tech cfg.edge_cells dims.margin_horizontal tech.site.width
          (fun e => e.left) (fun c => c.width) = some bx := by
        rw [← fabric_base_offset_toOption, hx]; rfl
      rw [hbx]
      cases hy : fabric_base_offset tech cfg.edge_cells dims.margin_vertical tech.site.height
          (fun e => e.bottom) (fun c => c.height) with
      | error e =>
          have hby : spec_base_offset tech cfg.edge_cells dims.margin_vertical tech.site.height
              (fun e => e.bottom) (fun c => c.height) = none := by
            rw [← fabric_base_offset_toOption, hy]; rfl
          rw [hby]
          rfl
      | ok by0 =>
          have hby : spec_base_offset tech cfg.edge_cells dims.margin_vertical tech.site.height
              (fun e => e.bottom) (fun c => c.height) = some by0 := by
            rw [← fabric_base_offset_toOption, hy]; rfl
          rw [hby]
          show (((List.range tile_array.length).mapM (fun tile_row =>
              (List.range (tile_array.headD []).length).mapM (fun tile_col =>
                match tiles.get_tile_by_name ((tile_array.getD tile_row []).getD tile_col "") with
                | none => Except.error ("tile " ++ (tile_array.getD tile_row []).getD tile_col ""
                    ++ " not found in tile definitions")
                | some tile => generate_tile_cells tech tile tile_row tile_col bx by0))) >>=
              (fun rows => Except.ok (rows.map List.flatten).flatten)).toOption =
            (((List.range tile_array.length).mapM (fun tile_row =>
              (List.range (tile_array.headD []).length).mapM (fun tile_col =>
                (tiles.get_tile_by_name ((tile_array.getD tile_row []).getD tile_col "")).bind
                  (fun tile => spec_tile_instances tech tile tile_row tile_col bx by0)))) >>=
              (fun rows => some (rows.map List.flatten).flatten))
          have hcol : ∀ (trr tcc : ℕ),
              ((match tiles.get_tile_by_name ((tile_array.getD trr []).getD tcc "") with
                | none => Except.error ("tile " ++ (tile_array.getD trr []).getD tcc "" ++
                    " not found in tile definitions")
                | some tile => generate_tile_cells tech tile trr tcc bx by0) :
                Except String (List CellInstance)).toOption =
              (tiles.get_tile_by_name ((tile_array.getD trr []).getD tcc "")).bind
                (fun tile => spec_tile_instances tech tile trr tcc bx by0) := by
            intro trr tcc
            cases hlk : tiles.get_tile_by_name ((tile_array.getD trr []).getD tcc "") with
            | none => rfl
            | some tile => exact generate_tile_cells_toOption tech tile trr tcc bx by0
          have hrowfn : ∀ (trr : ℕ),
              ((List.range (tile_array.headD []).length).mapM (fun tcc =>
                match tiles.get_tile_by_name ((tile_array.getD trr []).getD tcc "") with
                | none => Except.error ("tile " ++ (tile_array.getD trr []).getD tcc "" ++
                    " not found in tile definitions")
                | some tile => generate_tile_cells tech tile trr tcc bx by0)).toOption =
              (List.range (tile_array.headD []).length).mapM (fun tcc =>
                (tiles.get_tile_by_name ((tile_array.getD trr []).getD tcc "")).bind
                  (fun tile => spec_tile_instances tech tile trr tcc bx by0)) := by
            intro trr
            exact mapM_toOption _ _ (fun tcc => hcol trr tcc) _
          have hmap := mapM_toOption _ _ hrowfn (List.range tile_array.length)
          cases hm : (List.range tile_array.length).mapM (fun trr =>
              (List.range (tile_array.headD []).length).mapM (fun tcc =>
                match tiles.get_tile_by_name ((tile_array.getD trr []).getD tcc "") with
                | none => Except.error ("tile " ++ (tile_array.getD trr []).getD tcc "" ++
                    " not found in tile definitions")
                | some tile => generate_tile_cells tech tile trr tcc bx by0)) with
          | error e =>
              rw [← hmap, hm]
              rfl
          | ok rows =>
              rw [← hmap, hm]
              rfl

/-- Witness for C4: two auto pins on the south edge of the 20×10
example die sit at strictly increasing x positions. -/
theorem c4_auto_pin_placement_witness :
    ("south" = "south" ∨ "south" = "north") ∧
    (0 < dimsW.die_width - 2 * dimsW.margin_horizontal) ∧
    (0 < [pinP5, pinP5].length) ∧
    ((place_auto_pins "south" [pinP5, pinP5] ⟨1, 1⟩ dimsW).getD 0 dummy_pin).x <
      ((place_auto_pins "south" [pinP5, pinP5] ⟨1, 1⟩ dimsW).getD 1 dummy_pin).x :=
  ⟨Or.inl rfl, by norm_num [dimsW], by norm_num,
    ((c4_auto_pin_placement [pinP5, pinP5] ⟨1, 1⟩ dimsW).1 "south"
      (Or.inl rfl)).2.2.1 (by norm_num [dimsW]) 0 1 (by norm_num) (by norm_num)⟩

end SASIC
